import Mathlib

/-!
# wal-g: retention planner (`delete.go`) and extraction pipeline (`extract.go`)

A shallow embedding of the two files into pure Lean functions, followed by
the properties proved about them.

Conventions of the embedding

* Go `string` is `String`; Go `int` is `Int` (no arithmetic here can overflow:
  the only operations are comparisons, `len`, loop indices and halving).
* Go's `a > b` on strings is `strGt a b`, the lexicographic order of the
  character lists, which is the order `<` of `String`.
* A call that ends the process (`log.Fatal`, `log.Fatalf`) or a run-time
  panic is an explicit outcome of the embedded function, never dropped.
* Collaborators that the two files only call (the object store, the codecs,
  the crypter, `time.Parse`) are fields of an environment structure.
* The loop of `ExtractAll` takes a pass of `tryExtractFiles` by what it
  returns. The pass itself is embedded as a run of its goroutines under an
  explicit schedule of atomic steps; the work inside a goroutine
  (`DecryptAndDecompressTar`, `extractOne`, the pipe between them) is given
  by the error it returns.
-/

namespace Walg

/-! ## Strings -/

/-- Go's `a > b` on strings: lexicographic comparison, decided on the character lists. -/
def strGt (a b : String) : Bool :=
  decide (b.toList < a.toList)

/-! ## `delete.go`: the catalog scan -/

/-- Modelled from the spec: the declaration of `BackupTime` is not part of the
two files; a catalog row pairs a backup name with an ordering key and the
earliest WAL segment file name the backup needs. `delete.go` reads `Name` and
`WalFileName` only. -/
structure BackupTime where
  /-- backup name -/
  Name : String
  /-- ordering key of the row (unused by the planner) -/
  Time : Nat
  /-- earliest WAL segment the backup needs -/
  WalFileName : String
deriving DecidableEq, Repr

/-- The three local variables of the loop of `ComputeDeletionSkipline`. -/
structure SkiplineState where
  /-- the `skip` flag -/
  skip : Bool
  /-- the `skipLine` result variable -/
  skipLine : Int
  /-- the `walSkipFileName` result variable -/
  walSkipFileName : String
deriving DecidableEq, Repr

/-- The update of `walSkipFileName` made in the `if skip` branch:
`if walSkipFileName == "" || walSkipFileName > backupTime.WalFileName`. -/
def walUpdate (walSkipFileName : String) (backupTime : BackupTime) : String :=
  if walSkipFileName == "" || strGt walSkipFileName backupTime.WalFileName then
    backupTime.WalFileName
  else
    walSkipFileName

/-- One iteration of the `for i, backupTime := range backups` loop of
`ComputeDeletionSkipline` (the two `log.Printf` calls have no effect on the state). -/
def skiplineStep (target : String) (st : SkiplineState) (i : Nat) (backupTime : BackupTime) :
    SkiplineState :=
  let wal := if st.skip then walUpdate st.walSkipFileName backupTime else st.walSkipFileName
  if backupTime.Name == target then
    { skip := false, skipLine := (i : Int), walSkipFileName := wal }
  else
    { skip := st.skip, skipLine := st.skipLine, walSkipFileName := wal }

/-- The loop of `ComputeDeletionSkipline`, from index `i` on. -/
def skiplineLoop (target : String) : Nat → List BackupTime → SkiplineState → SkiplineState
  | _, [], st => st
  | i, backupTime :: rest, st => skiplineLoop target (i + 1) rest (skiplineStep target st i backupTime)

/-- Go `ComputeDeletionSkipline(backups, target) (skipLine, walSkipFileName)`. -/
def ComputeDeletionSkipline (backups : List BackupTime) (target : String) : Int × String :=
  let st := skiplineLoop target 0 backups
    { skip := true, skipLine := (backups.length : Int), walSkipFileName := "" }
  (st.skipLine, st.walSkipFileName)

/-- The loop of `deleteBackupsBefore`, from index `i` on: the backups handed to
`dropBackup`, in call order. -/
def deleteBackupsBeforeLoop (skipline : Int) : Nat → List BackupTime → List BackupTime
  | _, [] => []
  | i, b :: rest =>
    if (i : Int) > skipline then
      b :: deleteBackupsBeforeLoop skipline (i + 1) rest
    else
      deleteBackupsBeforeLoop skipline (i + 1) rest

/-- Go `deleteBackupsBefore(backups, skipline, pre)`: the sequence of `dropBackup`
calls the loop issues, in order. A `dropBackup` that ends the process cuts the
sequence short; that is modelled where the calls are run (`runDrops`). -/
def deleteBackupsBefore (backups : List BackupTime) (skipline : Int) : List BackupTime :=
  deleteBackupsBeforeLoop skipline 0 backups

/-- The catalog of the worked example: `[A(wal=1), B(wal=2), C(wal=3), D(wal=4)]`. -/
def exampleCatalog : List BackupTime :=
  [⟨"A", 1, "1"⟩, ⟨"B", 2, "2"⟩, ⟨"C", 3, "3"⟩, ⟨"D", 4, "4"⟩]

/-- The running fold of `walUpdate` over a list of rows. -/
def walFold (w : String) (l : List BackupTime) : String :=
  l.foldl walUpdate w

/-! ## `delete.go`: `ParseDeleteArguments` -/

/-- A run-time panic of the Go program. -/
inductive GoPanic where
  /-- Go `index out of range` -/
  | indexOutOfRange
  /-- Go `slice bounds out of range` -/
  | sliceOutOfRange
  /-- Go `nil pointer dereference` -/
  | nilDereference
deriving DecidableEq, Repr

/-- The index expression `l[i]` on a slice of strings. -/
def index (l : List String) (i : Nat) : Except GoPanic String :=
  match l[i]? with
  | some s => .ok s
  | none => .error .indexOutOfRange

/-- The slice expression `l[n:]`. -/
def sliceFrom (l : List String) (n : Nat) : Except GoPanic (List String) :=
  if n ≤ l.length then .ok (l.drop n) else .error .sliceOutOfRange

/-- Go `DeleteCommandArguments`; `beforeTime` is a `*time.Time`, `none` is `nil`. An
instant is an integer on the time line. -/
structure DeleteCommandArguments where
  /-- Go `full` -/
  full : Bool
  /-- Go `findFull` -/
  findFull : Bool
  /-- Go `retain` -/
  retain : Bool
  /-- Go `before` -/
  before : Bool
  /-- Go `target` -/
  target : String
  /-- Go `beforeTime` -/
  beforeTime : Option Int
  /-- Go `dryrun` -/
  dryrun : Bool
deriving DecidableEq, Repr

/-- The zero value of `DeleteCommandArguments`, the initial value of the named result. -/
def DeleteCommandArguments.zero : DeleteCommandArguments :=
  { full := false, findFull := false, retain := false, before := false, target := "",
    beforeTime := none, dryrun := false }

/-- The standard-library calls of `ParseDeleteArguments` that depend on the clock. -/
structure ParseEnv where
  /-- Go `time.Parse(time.RFC3339, s)`: `some t` when `err == nil` -/
  timeParse : String → Option Int
  /-- Go `time.Now()` -/
  now : Int

/-- The value of a string of ASCII digits, `none` when a character is not a digit. -/
def digitsValue : List Char → Nat → Option Nat
  | [], n => some n
  | ch :: rest, n => if ch.isDigit then digitsValue rest (n * 10 + (ch.toNat - 48)) else none

/-- The optional leading sign of a numeral: whether it is `-`, and the rest. -/
def splitSign : List Char → Bool × List Char
  | '-' :: rest => (true, rest)
  | '+' :: rest => (false, rest)
  | cs => (false, cs)

/-- The digits of a numeral after its sign: at least one digit, the value in the
range of a 64-bit `int`. -/
def atoiDigits (negative : Bool) (ds : List Char) : Option Int :=
  if ds.isEmpty then none
  else
    match digitsValue ds 0 with
    | none => none
    | some n =>
      let v : Int := if negative then -(n : Int) else (n : Int)
      if -(2 : Int) ^ 63 ≤ v ∧ v < (2 : Int) ^ 63 then some v else none

/-- Go `strconv.Atoi` of the Go standard library on a 64-bit platform: an optional
sign, then one or more ASCII digits, with a value in the range of `int`;
`none` when it returns an error. -/
def Atoi (s : String) : Option Int :=
  atoiDigits (splitSign s.toList).1 (splitSign s.toList).2

/-- The integer that a decimal numeral denotes, whatever its size: `none` when
the string is not an optional sign followed by one or more decimal digits. -/
def decimalValue (s : String) : Option Int :=
  if (splitSign s.toList).2.isEmpty then none
  else
    match digitsValue (splitSign s.toList).2 0 with
    | none => none
    | some n => some (if (splitSign s.toList).1 then -(n : Int) else (n : Int))

/-- A decimal integer, in the words of the command grammar: an optional sign
followed by one or more decimal digits. -/
def isDecimalInteger (s : String) : Bool :=
  !(splitSign s.toList).2.isEmpty && (splitSign s.toList).2.all Char.isDigit

/-- Lines 38-47: the `retain` / `before` keyword. `none` is the `else` branch
(fallback and return). -/
def parseMode (result : DeleteCommandArguments) (params : List String) :
    Except GoPanic (Option (DeleteCommandArguments × List String)) :=
  (index params 0).bind fun p0 =>
    if p0 == "retain" then
      (sliceFrom params 1).bind fun ps => .ok (some ({ result with retain := true }, ps))
    else if p0 == "before" then
      (sliceFrom params 1).bind fun ps => .ok (some ({ result with before := true }, ps))
    else
      .ok none

/-- Lines 48-54: the optional `FULL` / `FIND_FULL` modifier. -/
def parseModifier (result : DeleteCommandArguments) (params : List String) :
    Except GoPanic (DeleteCommandArguments × List String) :=
  (index params 0).bind fun p0 =>
    if p0 == "FULL" then
      (sliceFrom params 1).bind fun ps => .ok ({ result with full := true }, ps)
    else if p0 == "FIND_FULL" then
      (sliceFrom params 1).bind fun ps => .ok ({ result with findFull := true }, ps)
    else
      .ok (result, params)

/-- Lines 71-73: `len(params) > 1 && (params[1] == "--confirm" || params[1] == "-confirm")`. -/
def confirmed (params : List String) : Except GoPanic Bool :=
  if params.length > 1 then
    (index params 1).bind fun p1 => .ok (p1 == "--confirm" || p1 == "-confirm")
  else
    .ok false

/-- Lines 75-88: the check of the count in `retain` mode; `calls` counts the
invocations of the fallback so far. -/
def parseRetain (result : DeleteCommandArguments) (calls : Nat) : DeleteCommandArguments × Nat :=
  if result.retain then
    match Atoi result.target with
    | none => (result, calls + 1)
    | some number => if number ≤ 0 then (result, calls + 1) else (result, calls)
  else
    (result, calls)

/-- Lines 55-88: the target, the timestamp check, the confirmation flag and the
count check. -/
def parseTarget (env : ParseEnv) (result : DeleteCommandArguments) (params : List String) :
    Except GoPanic (DeleteCommandArguments × Nat) :=
  if params.length < 1 then
    .ok (result, 1)
  else
    (index params 0).bind fun target =>
      let result := { result with target := target }
      let timed : DeleteCommandArguments × Nat :=
        match env.timeParse result.target with
        | some t => ({ result with beforeTime := some t }, if t > env.now then 1 else 0)
        | none => (result, 0)
      let result := { timed.1 with dryrun := true }
      (confirmed params).bind fun c =>
        let result := if c then { result with dryrun := false } else result
        .ok (parseRetain result timed.2)

/-- Go `ParseDeleteArguments(args, fallBackFunc)`: the named result at the return,
paired with the number of times `fallBackFunc` was invoked; an error is a
run-time panic. -/
def ParseDeleteArguments (env : ParseEnv) (args : List String) :
    Except GoPanic (DeleteCommandArguments × Nat) :=
  let result := DeleteCommandArguments.zero
  if args.length < 3 then
    .ok (result, 1)
  else
    (sliceFrom args 1).bind fun params =>
      (parseMode result params).bind fun mode =>
        match mode with
        | none => .ok (result, 1)
        | some (result, params) =>
          (parseModifier result params).bind fun modified =>
            parseTarget env modified.1 modified.2

/-- The number of effective parameters consumed before the target: the keyword
and the optional modifier. The target is `args[targetIndex args]`. -/
def targetIndex (args : List String) : Nat :=
  if args[2]? = some "FULL" ∨ args[2]? = some "FIND_FULL" then 3 else 2

/-! ## `delete.go`: `deleteBeforeTarget` -/

/-- Modelled from the spec: the sentinel type is declared outside the two files;
it records whether the backup is incremental (`IsIncremental()`) and, if so,
the name of its full ancestor (`IncrementFullName`, a `*string`). -/
structure S3TarBallSentinelDto where
  /-- the result of `dto.IsIncremental()` -/
  IsIncremental : Bool
  /-- the pointer field `IncrementFullName`; `none` is `nil` -/
  IncrementFullName : Option String
deriving DecidableEq, Repr

/-- The calls that `deleteBeforeTarget` makes, as recorded in its trace. -/
inductive DeleteCall where
  /-- Go `fetchSentinel(target, bk, pre)` -/
  | fetchSentinel (target : String)
  /-- Go `bk.GetBackups()` -/
  | GetBackups
  /-- Go `ComputeDeletionSkipline(backups, target)` -/
  | ComputeDeletionSkipline (backups : List BackupTime) (target : String)
  /-- Go `deleteWALBefore(walSkipFileName, pre)` -/
  | deleteWALBefore (walSkipFileName : String)
  /-- Go `deleteBackupsBefore(backups, skipLine, pre)` -/
  | deleteBackupsBefore (backups : List BackupTime) (skipLine : Int)
  /-- Go `dropBackup(pre, b)` -/
  | dropBackup (b : BackupTime)
  /-- Go `log.Printf("Dry run finished.\n")` -/
  | dryRunFinished
  /-- Go `log.Fatal` / `log.Fatalf`: the process ends -/
  | logFatal
  /-- a nil pointer dereference: the process ends -/
  | nilDereference
deriving DecidableEq, Repr

/-- A call that deletes from the object store. -/
def DeleteCall.isDeletion : DeleteCall → Bool
  | .deleteWALBefore _ => true
  | .deleteBackupsBefore _ _ => true
  | .dropBackup _ => true
  | _ => false

/-- The collaborators of `deleteBeforeTarget`: the sentinel store, the catalog
and the object store. A deletion either completes or ends the process with
`log.Fatal`. -/
structure DeleteEnv where
  /-- Go `fetchSentinel(target, bk, pre)` -/
  fetchSentinel : String → S3TarBallSentinelDto
  /-- Go `bk.GetBackups()` -/
  GetBackups : Except String (List BackupTime)
  /-- whether `deleteWALBefore(walSkipFileName, pre)` returns -/
  deleteWALBeforeOk : String → Bool
  /-- whether `dropBackup(pre, b)` returns -/
  dropBackupOk : BackupTime → Bool

/-- Lines 93-99: the effective target; an error is the call that ends the process. -/
def resolveTarget (dto : S3TarBallSentinelDto) (target : String) (findFull : Bool) :
    Except DeleteCall String :=
  if dto.IsIncremental then
    if findFull then
      match dto.IncrementFullName with
      | some fullName => .ok fullName
      | none => .error .nilDereference
    else
      .error .logFatal
  else
    .ok target

/-- Lines 101-106: the catalog, read from the store when the argument is `nil`. -/
def resolveBackups (env : DeleteEnv) (backups : Option (List BackupTime)) :
    Except (List DeleteCall) (List DeleteCall × List BackupTime) :=
  match backups with
  | some bs => .ok ([], bs)
  | none =>
    match env.GetBackups with
    | .ok bs => .ok ([.GetBackups], bs)
    | .error _ => .error [.GetBackups, .logFatal]

/-- The `dropBackup` calls of `deleteBackupsBefore`, run against the store: the
first one that fails ends the process. -/
def runDrops (env : DeleteEnv) : List BackupTime → List DeleteCall
  | [] => []
  | b :: rest =>
    if env.dropBackupOk b then .dropBackup b :: runDrops env rest
    else [.dropBackup b, .logFatal]

/-- Lines 111-118: the deletion, or the dry-run message. -/
def deletionPhase (env : DeleteEnv) (backups : List BackupTime) (skipLine : Int)
    (walSkipFileName : String) (dryRun : Bool) : List DeleteCall :=
  if !dryRun then
    if skipLine < (backups.length : Int) - 1 then
      if env.deleteWALBeforeOk walSkipFileName then
        .deleteWALBefore walSkipFileName :: .deleteBackupsBefore backups skipLine ::
          runDrops env (deleteBackupsBefore backups skipLine)
      else
        [.deleteWALBefore walSkipFileName, .logFatal]
    else
      []
  else
    [.dryRunFinished]

/-- Lines 100-118: everything after the target is resolved. -/
def planAndDelete (env : DeleteEnv) (target : String) (backups : Option (List BackupTime))
    (dryRun : Bool) : List DeleteCall :=
  match resolveBackups env backups with
  | .error calls => calls
  | .ok (calls, backups) =>
    let plan := ComputeDeletionSkipline backups target
    calls ++ .ComputeDeletionSkipline backups target ::
      deletionPhase env backups plan.1 plan.2 dryRun

/-- Go `deleteBeforeTarget(target, bk, pre, findFull, backups, dryRun)`: the trace of
its calls, in order. -/
def deleteBeforeTarget (env : DeleteEnv) (target : String) (findFull : Bool)
    (backups : Option (List BackupTime)) (dryRun : Bool) : List DeleteCall :=
  .fetchSentinel target ::
    match resolveTarget (env.fetchSentinel target) target findFull with
    | .error call => [call]
    | .ok target => planAndDelete env target backups dryRun

/-- The fallback function was invoked: `ParseDeleteArguments` returns (it does not
panic) and has called `fallBackFunc` at least once. -/
def FallbackInvoked (env : ParseEnv) (args : List String) : Prop :=
  ∃ r, ParseDeleteArguments env args = .ok r ∧ 1 ≤ r.2

/-- The argument right after the target is a confirmation flag. -/
def confirmFollows (args : List String) : Prop :=
  args[targetIndex args + 1]? = some "--confirm" ∨ args[targetIndex args + 1]? = some "-confirm"

/-- The fallback calls made by the timestamp check on the target `t`. -/
def futureDateCalls (env : ParseEnv) (t : String) : Nat :=
  match env.timeParse t with
  | some time => if time > env.now then 1 else 0
  | none => 0

/-- A clock for examples: one string parses as an instant in the future. -/
def exampleClock : ParseEnv :=
  { timeParse := fun s => if s == "2099-01-01T00:00:00Z" then some 100 else none
    now := 50 }

/-- The named result after a valid keyword `mode` (`retain`, else `before`). -/
def keywordResult (mode : String) : DeleteCommandArguments :=
  if mode = "retain" then { DeleteCommandArguments.zero with retain := true }
  else { DeleteCommandArguments.zero with before := true }

/-- A sentinel store for examples: `E` is an incremental backup whose full
ancestor is `C`; every other backup is full. -/
def exampleStore : DeleteEnv :=
  { fetchSentinel := fun name =>
      if name == "E" then { IsIncremental := true, IncrementFullName := some "C" }
      else { IsIncremental := false, IncrementFullName := none }
    GetBackups := .ok exampleCatalog
    deleteWALBeforeOk := fun _ => true
    dropBackupOk := fun _ => true }

/-- A call of `ComputeDeletionSkipline`. -/
def DeleteCall.isCompute : DeleteCall → Bool
  | .ComputeDeletionSkipline _ _ => true
  | _ => false

/-! ## `extract.go`: errors -/

/-- A Go `error` value as `extract.go` builds it: a plain error, the
`UnsupportedFileTypeError` struct, or an error wrapped by `errors.Wrap`. -/
inductive GoError where
  /-- Go `errors.New(msg)`, or an error of a collaborator -/
  | plain (msg : String)
  /-- Go `UnsupportedFileTypeError{Path, FileFormat}` -/
  | UnsupportedFileTypeError (Path : String) (FileFormat : String)
  /-- Go `errors.Wrap(cause, msg)` with a non-nil `cause` -/
  | wrapped (cause : GoError) (msg : String)
deriving DecidableEq, Repr

/-- Go `errors.Cause`: the innermost error of a chain of wraps. -/
def GoError.Cause : GoError → GoError
  | .wrapped cause _ => cause.Cause
  | e => e

/-- Go `errors.Wrap(err, msg)` and `errors.Wrapf`: `nil` when `err` is `nil`. -/
def Wrap (err : Option GoError) (msg : String) : Option GoError :=
  match err with
  | none => none
  | some e => some (.wrapped e msg)

/-- Go `var NoFilesToExtractError = errors.New(...)`. -/
def NoFilesToExtractError : GoError :=
  .plain "ExtractAll: did not provide files to extract"

/-! ## `extract.go`: `EmptyWriteIgnorer` -/

/-- An `io.WriteCloser` as a state machine on a state `σ`: `Write(p)` returns the
new state and the pair `(n, err)`. -/
structure WriteCloser (σ : Type) where
  /-- Go `Write(p []byte) (n int, err error)` -/
  Write : σ → List UInt8 → σ × (Int × Option GoError)

/-- Go `func (e EmptyWriteIgnorer) Write(p []byte) (int, error)`, over the embedded
`WriteCloser`. -/
def EmptyWriteIgnorer.Write {σ : Type} (e : WriteCloser σ) (s : σ) (p : List UInt8) :
    σ × (Int × Option GoError) :=
  if p.length == 0 then
    (s, (0, none))
  else
    e.Write s p

/-- A sequence of `Write` calls: the final state and the results, in call order. -/
def runWrites {σ : Type} (write : σ → List UInt8 → σ × (Int × Option GoError)) :
    σ → List (List UInt8) → σ × List (Int × Option GoError)
  | s, [] => (s, [])
  | s, p :: rest =>
    let r := write s p
    let t := runWrites write r.1 rest
    (t.1, r.2 :: t.2)

/-- A writer that records the slices it receives, as the reading end of a pipe
sees them; every write succeeds in full. -/
def recordingWriter : WriteCloser (List (List UInt8)) :=
  { Write := fun s p => (s ++ [p], ((p.length : Int), none)) }

/-! ## `extract.go`: `DecryptAndDecompressTar` -/

/-- One entry of the `Decompressors` table, over streams of type `ρ`;
`Decompress(dst, src)` is given by the `Write` calls it makes on `dst` and the
error it returns. -/
structure Decompressor (ρ : Type) where
  /-- Go `FileExtension()` -/
  FileExtension : String
  /-- Go `Decompress(dst, src)` -/
  Decompress : ρ → List (List UInt8) × Option GoError

/-- Go `ReaderMaker`: a path and a way to open the stream. -/
structure ReaderMaker (ρ : Type) where
  /-- Go `Path()` -/
  Path : String
  /-- Go `Reader()` -/
  Reader : Except GoError ρ

/-- Go `Crypter`. -/
structure Crypter (ρ : Type) where
  /-- Go `IsUsed()` -/
  IsUsed : Bool
  /-- Go `Decrypt(reader)` -/
  Decrypt : ρ → Except GoError ρ

/-- What `DecryptAndDecompressTar` uses and the two files do not declare: the
`Decompressors` table, `GetFileExtension`, and `io.Copy(writer, src)` given by
the `Write` calls it makes and the error it returns. -/
structure ExtractEnv (ρ : Type) where
  /-- the package variable `Decompressors` -/
  Decompressors : List (Decompressor ρ)
  /-- Go `GetFileExtension(path)` -/
  GetFileExtension : String → String
  /-- Go `io.Copy(writer, src)` -/
  ioCopy : ρ → List (List UInt8) × Option GoError

/-- Lines 72-78: the loop over `Decompressors`; `none` when the loop ends without
a `return`. -/
def decompressLoop {ρ : Type} (fileExtension : String) (readCloser : ρ) :
    List (Decompressor ρ) → Option (Option GoError × List (List UInt8))
  | [] => none
  | decompressor :: rest =>
    if fileExtension != decompressor.FileExtension then
      decompressLoop fileExtension readCloser rest
    else
      let r := decompressor.Decompress readCloser
      some (Wrap r.2 ("DecryptAndDecompressTar: " ++ decompressor.FileExtension ++
        " decompress failed. Is archive encrypted?"), r.1)

/-- Lines 79-89: the `switch fileExtension`. -/
def extensionSwitch {ρ : Type} (env : ExtractEnv ρ) (path : String) (fileExtension : String)
    (readCloser : ρ) : Option GoError × List (List UInt8) :=
  if fileExtension == "tar" then
    let r := env.ioCopy readCloser
    (Wrap r.2 "DecryptAndDecompressTar: tar extract failed", r.1)
  else if fileExtension == "nop" then
    (none, [])
  else if fileExtension == "lzo" then
    (Wrap (some (.UnsupportedFileTypeError path fileExtension))
      "DecryptAndDecompressTar: lzo linked to this WAL-G binary", [])
  else
    (Wrap (some (.UnsupportedFileTypeError path fileExtension)) "DecryptAndDecompressTar:", [])

/-- Go `DecryptAndDecompressTar(writer, readerMaker, crypter)`: the returned error
and the `Write` calls made on `writer`, in order. (The deferred `Close` of the
source stream does not touch `writer`.) -/
def DecryptAndDecompressTar {ρ : Type} (env : ExtractEnv ρ) (readerMaker : ReaderMaker ρ)
    (crypter : Crypter ρ) : Option GoError × List (List UInt8) :=
  match readerMaker.Reader with
  | .error err => (Wrap (some err) "DecryptAndDecompressTar: failed to create new reader", [])
  | .ok readCloser =>
    match (if crypter.IsUsed then crypter.Decrypt readCloser else .ok readCloser) with
    | .error err => (Wrap (some err) "DecryptAndDecompressTar: decrypt failed", [])
    | .ok readCloser =>
      let fileExtension := env.GetFileExtension readerMaker.Path
      match decompressLoop fileExtension readCloser env.Decompressors with
      | some r => r
      | none => extensionSwitch env readerMaker.Path fileExtension readCloser

/-! ## `extract.go`: `ExtractAll` -/

/-- One call of `tryExtractFiles`, as recorded in the trace of `ExtractAll`. -/
structure PassRecord (α : Type) where
  /-- the number of the pass, from 0 -/
  pass : Nat
  /-- the argument `files` (the `currentRun` of the loop) -/
  files : List α
  /-- the argument `downloadingConcurrency` -/
  downloadingConcurrency : Int
  /-- the returned `failed` -/
  failed : List α
  /-- the returned `err` -/
  err : Option GoError
deriving DecidableEq, Repr

/-- What `ExtractAll` calls: `getMaxDownloadConcurrency` (declared outside the two
files) and one pass of `tryExtractFiles`. The loop takes a pass by what it
returns; what a pass returns under a given interleaving of its goroutines is
`tryExtractFiles` below. The result of a pass may differ from one pass to the
next, so it also depends on the pass number. -/
structure PipelineEnv (α τ : Type) where
  /-- Go `getMaxDownloadConcurrency(default)` -/
  getMaxDownloadConcurrency : Int → Int
  /-- Go `tryExtractFiles(files, tarInterpreter, downloadingConcurrency)` in the pass
  of the given number -/
  tryExtractFiles : Nat → List α → τ → Int → List α × Option GoError

/-- The `for currentRun := files; len(currentRun) > 0; { ... }` loop of
`ExtractAll`: the value of `err` at the exit and the passes made. The loop of
the source has no bound of its own; `fuel` bounds the number of passes, and
`none` means the bound was reached. -/
def extractLoop {α τ : Type} (env : PipelineEnv α τ) (tarInterpreter : τ) :
    Nat → Nat → List α → Int → Option GoError → Option (Option GoError × List (PassRecord α))
  | fuel, pass, currentRun, downloadingConcurrency, err =>
    if currentRun.length > 0 then
      match fuel with
      | 0 => none
      | fuel + 1 =>
        let r := env.tryExtractFiles pass currentRun tarInterpreter downloadingConcurrency
        let record : PassRecord α :=
          { pass := pass, files := currentRun, downloadingConcurrency := downloadingConcurrency,
            failed := r.1, err := r.2 }
        if downloadingConcurrency > 1 then
          (extractLoop env tarInterpreter fuel (pass + 1) r.1 (downloadingConcurrency / 2) r.2).map
            fun out => (out.1, record :: out.2)
        else if r.1.length == currentRun.length then
          some (r.2, [record])
        else
          (extractLoop env tarInterpreter fuel (pass + 1) r.1 downloadingConcurrency r.2).map
            fun out => (out.1, record :: out.2)
    else
      some (err, [])

/-- Go `ExtractAll(tarInterpreter, files)`: the returned error and the passes made. -/
def ExtractAll {α τ : Type} (env : PipelineEnv α τ) (fuel : Nat) (tarInterpreter : τ)
    (files : List α) : Option (Option GoError × List (PassRecord α)) :=
  if files.length < 1 then
    some (some NoFilesToExtractError, [])
  else
    let downloadingConcurrency := env.getMaxDownloadConcurrency (min (files.length : Int) 10)
    extractLoop env tarInterpreter fuel 0 files downloadingConcurrency none

/-- The relation between a pass and the next one in a trace of `ExtractAll`. -/
def NextPass {α : Type} (p q : PassRecord α) : Prop :=
  q.pass = p.pass + 1 ∧ q.files = p.failed ∧
  q.downloadingConcurrency
    = (if p.downloadingConcurrency > 1 then p.downloadingConcurrency / 2
       else p.downloadingConcurrency) ∧
  (p.downloadingConcurrency ≤ 1 → q.files.length < p.files.length)

/-- The record is what `tryExtractFiles` returned in that pass. -/
def RecordOf {α τ : Type} (env : PipelineEnv α τ) (tarInterpreter : τ) (r : PassRecord α) : Prop :=
  (r.failed, r.err) = env.tryExtractFiles r.pass r.files tarInterpreter r.downloadingConcurrency

/-- The proviso of the termination property: a pass returns a failed list no
longer than the list it was run on. -/
def PassBounded {α τ : Type} (env : PipelineEnv α τ) : Prop :=
  ∀ (pass : Nat) (files : List α) (ti : τ) (c : Int),
    (env.tryExtractFiles pass files ti c).1.length ≤ files.length

/-- A pipeline for examples: no configured ceiling, and in pass `k` exactly the
members greater than or equal to `10 * (k + 1)` fail. -/
def examplePipeline : PipelineEnv Nat Unit :=
  { getMaxDownloadConcurrency := fun d => d
    tryExtractFiles := fun pass files _ _ =>
      let failed := files.filter fun x => decide (10 * (pass + 1) ≤ x)
      (failed, if failed.isEmpty then none else some (.plain "Extraction error")) }

/-- An extension function for examples, in line with the cases of the test of
`GetFileExtension`: the text after the last dot, empty when there is no dot. -/
def exampleGetFileExtension (path : String) : String :=
  if path.toList.contains '.' then
    String.mk (path.toList.reverse.takeWhile fun ch => ch != '.').reverse
  else
    ""

/-- A codec table for examples: `lz4` and `lzma`, each passing the stream on in
one write; streams are byte lists. -/
def exampleExtractEnv : ExtractEnv (List UInt8) :=
  { Decompressors :=
      [{ FileExtension := "lz4", Decompress := fun src => ([src], none) },
       { FileExtension := "lzma", Decompress := fun src => ([src], none) }]
    GetFileExtension := exampleGetFileExtension
    ioCopy := fun src => (if src.isEmpty then [] else [src], none) }

/-- A member for examples: the path and three bytes of content. -/
def exampleMember (path : String) : ReaderMaker (List UInt8) :=
  { Path := path, Reader := .ok [1, 2, 3] }

/-- No encryption. -/
def noCrypter : Crypter (List UInt8) :=
  { IsUsed := false, Decrypt := fun src => .ok src }

/-- The record of pass `pass` run on `files` with limit `c`. -/
def passRecord {α τ : Type} (env : PipelineEnv α τ) (tarInterpreter : τ) (pass : Nat)
    (files : List α) (c : Int) : PassRecord α :=
  { pass := pass, files := files, downloadingConcurrency := c,
    failed := (env.tryExtractFiles pass files tarInterpreter c).1,
    err := (env.tryExtractFiles pass files tarInterpreter c).2 }

/-- The limit of the pass after a pass with limit `c`. -/
def nextLimit (c : Int) : Int :=
  if c > 1 then c / 2 else c

/-- The runs of the loop of `ExtractAll` from pass `pass` on a non-empty
`currentRun` with limit `c`: the value of `err` at the exit and the passes
made. The loop gives up (`break`), finishes (nothing failed), or retries. -/
inductive LoopTrace {α τ : Type} (env : PipelineEnv α τ) (ti : τ) :
    Nat → List α → Int → Option GoError → List (PassRecord α) → Prop where
  /-- the limit is at most 1 and the whole run failed: `break` -/
  | giveUp (pass : Nat) (run : List α) (c : Int) (hne : run ≠ []) (hc : c ≤ 1)
      (hall : (passRecord env ti pass run c).failed.length = run.length) :
      LoopTrace env ti pass run c (passRecord env ti pass run c).err
        [passRecord env ti pass run c]
  /-- nothing failed: the loop condition ends the loop -/
  | finish (pass : Nat) (run : List α) (c : Int) (hne : run ≠ [])
      (hgo : ¬ (c ≤ 1 ∧ (passRecord env ti pass run c).failed.length = run.length))
      (hnil : (passRecord env ti pass run c).failed = []) :
      LoopTrace env ti pass run c (passRecord env ti pass run c).err
        [passRecord env ti pass run c]
  /-- some members failed: the next pass runs on them -/
  | retry (pass : Nat) (run : List α) (c : Int) (hne : run ≠ [])
      (hgo : ¬ (c ≤ 1 ∧ (passRecord env ti pass run c).failed.length = run.length))
      (hsome : (passRecord env ti pass run c).failed ≠ [])
      (err : Option GoError) (trace : List (PassRecord α))
      (hrest : LoopTrace env ti (pass + 1) (passRecord env ti pass run c).failed (nextLimit c)
        err trace) :
      LoopTrace env ti pass run c err (passRecord env ti pass run c :: trace)

/-- The last pass of a trace stopped the loop: nothing failed, or the limit was
at most 1 and the whole run failed. -/
def StopsLoop {α : Type} (last : PassRecord α) : Prop :=
  last.failed = [] ∨
  (last.downloadingConcurrency ≤ 1 ∧ last.failed.length = last.files.length)

/-! ## `extract.go`: one pass of `tryExtractFiles` under a schedule -/

/-- The two goroutines that `tryExtractFiles` starts for a member: the one that
runs `DecryptAndDecompressTar` and the one that runs `extractOne`. -/
inductive Side where
  /-- the goroutine of lines 132-143 -/
  | decompress
  /-- the goroutine of lines 144-157 -/
  | extract
deriving DecidableEq, Repr

/-- Where a goroutine stands. After its work (`DecryptAndDecompressTar` or
`extractOne`) has returned `err`, the code is
`if err != nil { if _, ok := inFailed.LoadOrStore(f, true); !ok { failed = append(failed, f) } }; return err`.
`LoadOrStore` is atomic; the statement `failed = append(failed, f)` is not:
it reads the shared slice `failed` and later stores the extended slice, with
no lock around the two. -/
inductive Pc (α : Type) where
  /-- the work has not returned yet -/
  | work
  /-- the work returned an error: about to call `inFailed.LoadOrStore` -/
  | loadOrStore
  /-- the member was not in `inFailed`: about to read the slice `failed` -/
  | readFailed
  /-- has read `seen` from `failed`: about to store `append(seen, f)` -/
  | writeFailed (seen : List α)
  /-- about to return `err` -/
  | returning
  /-- has returned -/
  | done
deriving DecidableEq, Repr

/-- The goroutine has returned. -/
def Pc.isDone {α : Type} : Pc α → Bool
  | .done => true
  | _ => false

/-- The state of one call of `tryExtractFiles`: the goroutines of the members
started so far (in the order of `files`), the keys of `inFailed`, the shared
slice `failed`, and the first error recorded by `errorCollector`. -/
structure PassState (α : Type) where
  /-- for each member started: the decompress side and the extract side -/
  pcs : List (Pc α × Pc α)
  /-- the keys of the `sync.Map` -/
  inFailed : List α
  /-- the shared slice `failed` -/
  failed : List α
  /-- the first non-nil error returned by a goroutine (`errgroup.Group`) -/
  err : Option GoError
deriving DecidableEq, Repr

/-- One event of a run: the main goroutine starts the next member (lines
126-158), or the goroutine of the member of index `member` on side `side`
takes its next step. -/
inductive PassEvent where
  /-- the loop body for the next member -/
  | launch
  /-- the next step of a goroutine -/
  | step (member : Nat) (side : Side)
deriving DecidableEq, Repr

/-- The permits of `downloadingSemaphore` in use: one per member whose extract
goroutine has not returned (it releases the permit on return). -/
def permitsHeld {α : Type} (st : PassState α) : Nat :=
  (st.pcs.filter fun p => !p.2.isDone).length

/-- The next step of the goroutine of member `f` whose work returns `e`, at `pc`:
the new shared state and the new `pc`; `none` when it has returned. -/
def goroutineStep {α : Type} [DecidableEq α] (f : α) (e : Option GoError) (st : PassState α) :
    Pc α → Option (PassState α × Pc α)
  | .work => some (st, if e.isSome then .loadOrStore else .returning)
  | .loadOrStore =>
    if f ∈ st.inFailed then some (st, .returning)
    else some ({ st with inFailed := f :: st.inFailed }, .readFailed)
  | .readFailed => some (st, .writeFailed st.failed)
  | .writeFailed seen => some ({ st with failed := seen ++ [f] }, .returning)
  | .returning => some ({ st with err := if st.err.isSome then st.err else e }, .done)
  | .done => none

/-- One event of a run of `tryExtractFiles`; `none` when the event cannot happen:
a launch with no member left or no free permit (`Acquire(ctx, 1)` blocks), a
step of a goroutine that is not started or has returned. `outcome f side` is
what the work of the goroutine of member `f` on that side returns. -/
def passStep {α : Type} [DecidableEq α] (outcome : α → Side → Option GoError) (files : List α)
    (downloadingConcurrency : Int) (st : PassState α) : PassEvent → Option (PassState α)
  | .launch =>
    if st.pcs.length < files.length ∧ (permitsHeld st : Int) + 1 ≤ downloadingConcurrency then
      some { st with pcs := st.pcs ++ [(.work, .work)] }
    else
      none
  | .step member side =>
    match files[member]?, st.pcs[member]? with
    | some f, some pcs =>
      match side with
      | .decompress =>
        (goroutineStep f (outcome f .decompress) st pcs.1).map fun r =>
          { r.1 with pcs := st.pcs.set member (r.2, pcs.2) }
      | .extract =>
        (goroutineStep f (outcome f .extract) st pcs.2).map fun r =>
          { r.1 with pcs := st.pcs.set member (pcs.1, r.2) }
    | _, _ => none

/-- The events of a schedule, in order. -/
def runSchedule {α : Type} [DecidableEq α] (outcome : α → Side → Option GoError)
    (files : List α) (downloadingConcurrency : Int) :
    PassState α → List PassEvent → Option (PassState α)
  | st, [] => some st
  | st, ev :: rest =>
    match passStep outcome files downloadingConcurrency st ev with
    | none => none
    | some st1 => runSchedule outcome files downloadingConcurrency st1 rest

/-- Go `tryExtractFiles(files, tarInterpreter, downloadingConcurrency)` under a
schedule of its goroutines: the returned `(failed, err)`, when the schedule
is one the code can follow and ends with every member started and every
goroutine returned (the final `Acquire` and `errorCollector.Wait()`), and
`none` otherwise. The work of a goroutine is given by the error it returns. -/
def tryExtractFiles {α : Type} [DecidableEq α] (outcome : α → Side → Option GoError)
    (files : List α) (downloadingConcurrency : Int) (schedule : List PassEvent) :
    Option (List α × Option GoError) :=
  match runSchedule outcome files downloadingConcurrency
      { pcs := [], inFailed := [], failed := [], err := none } schedule with
  | none => none
  | some st =>
    if st.pcs.length = files.length ∧ st.pcs.all (fun p => p.1.isDone && p.2.isDone) then
      some (st.failed, st.err)
    else
      none

/-- The failing run, pass 0: the streams of members 1 and 2 both fail to open
(`Reader()` returns an error), so both decompress goroutines return an error
and both extract goroutines see an empty pipe and return `nil`. In pass 1
nothing fails. -/
def raceOutcome (pass : Nat) (_f : Nat) (side : Side) : Option GoError :=
  if pass = 0 ∧ side = .decompress then
    some (.wrapped (.plain "connection reset")
      "DecryptAndDecompressTar: failed to create new reader")
  else
    none

/-- A schedule of pass 0 of the failing run without interleaving: the goroutines
run to their return one after the other. -/
def orderlySchedule : List PassEvent :=
  [.launch, .launch,
   .step 0 .decompress, .step 0 .decompress, .step 0 .decompress, .step 0 .decompress,
   .step 0 .decompress,
   .step 0 .extract, .step 0 .extract,
   .step 1 .decompress, .step 1 .decompress, .step 1 .decompress, .step 1 .decompress,
   .step 1 .decompress,
   .step 1 .extract, .step 1 .extract]

/-- The failing run, the schedules: in pass 0 both members are started (limit
2), both decompress goroutines pass `LoadOrStore`, both read the empty slice
`failed`, then member 1 stores `[1]` and member 2 stores `[2]` over it. In
pass 1 the one member runs alone. -/
def raceSchedule (pass : Nat) : List PassEvent :=
  if pass = 0 then
    [.launch, .launch,
     .step 0 .decompress, .step 1 .decompress,
     .step 0 .decompress, .step 1 .decompress,
     .step 0 .decompress, .step 1 .decompress,
     .step 0 .decompress, .step 1 .decompress,
     .step 0 .decompress, .step 1 .decompress,
     .step 0 .extract, .step 0 .extract, .step 1 .extract, .step 1 .extract]
  else
    [.launch, .step 0 .decompress, .step 0 .decompress, .step 0 .extract, .step 0 .extract]

/-- The failing run as an environment of `ExtractAll`: no configured ceiling on
the limit, and each pass is `tryExtractFiles` under `raceSchedule`. -/
def racePipeline : PipelineEnv Nat Unit :=
  { getMaxDownloadConcurrency := fun d => d
    tryExtractFiles := fun pass files _ c =>
      (tryExtractFiles (raceOutcome pass) files c (raceSchedule pass)).getD ([], none) }

/-! # Theorems -/


theorem strGt_iff (a b : String) : strGt a b = true ↔ b < a := by
  simp [strGt, String.lt_iff_toList_lt]

theorem walFold_append (w : String) (l₁ l₂ : List BackupTime) :
    walFold w (l₁ ++ l₂) = walFold (walFold w l₁) l₂ := by
  simp [walFold, List.foldl_append]

theorem skiplineLoop_append (target : String) (l₁ l₂ : List BackupTime) :
    ∀ (i : Nat) (st : SkiplineState),
      skiplineLoop target i (l₁ ++ l₂) st
        = skiplineLoop target (i + l₁.length) l₂ (skiplineLoop target i l₁ st) := by
  induction l₁ with
  | nil => intro i st; simp [skiplineLoop]
  | cons b rest ih =>
    intro i st
    have e : i + (rest.length + 1) = i + 1 + rest.length := by omega
    rw [List.cons_append, List.length_cons, e]
    simp only [skiplineLoop]
    exact ih (i + 1) _

/-- Over rows that do not carry the target name the loop only folds the WAL name
(while `skip` is set) and leaves everything else alone. -/
theorem skiplineLoop_no_match (target : String) (l : List BackupTime)
    (hno : ∀ b ∈ l, b.Name ≠ target) :
    ∀ (i : Nat) (st : SkiplineState),
      skiplineLoop target i l st
        = { skip := st.skip, skipLine := st.skipLine,
            walSkipFileName := if st.skip then walFold st.walSkipFileName l
                               else st.walSkipFileName } := by
  induction l with
  | nil => intro i st; cases st; simp [skiplineLoop, walFold]
  | cons b rest ih =>
    intro i st
    have hb : b.Name ≠ target := hno b (List.mem_cons_self _ _)
    have hrest : ∀ c ∈ rest, c.Name ≠ target := fun c hc => hno c (List.mem_cons_of_mem _ hc)
    simp only [skiplineLoop]
    rw [ih hrest]
    cases hs : st.skip <;> simp [skiplineStep, hb, hs, walFold]

/-- The scan of a catalog split at a row carrying the target name, when no other
row carries it. -/
theorem skiplineLoop_split (target : String) (pre post : List BackupTime) (b : BackupTime)
    (hb : b.Name = target) (hpre : ∀ c ∈ pre, c.Name ≠ target)
    (hpost : ∀ c ∈ post, c.Name ≠ target) (n : Int) :
    skiplineLoop target 0 (pre ++ b :: post) { skip := true, skipLine := n, walSkipFileName := "" }
      = { skip := false, skipLine := (pre.length : Int),
          walSkipFileName := walFold "" (pre ++ [b]) } := by
  rw [skiplineLoop_append, skiplineLoop_no_match target pre hpre]
  simp only [skiplineLoop, Nat.zero_add]
  rw [skiplineLoop_no_match target post hpost]
  simp [skiplineStep, hb, walFold_append, walFold]

theorem deleteBackupsBeforeLoop_all (skipline : Int) (l : List BackupTime) :
    ∀ (i : Nat), skipline < (i : Int) → deleteBackupsBeforeLoop skipline i l = l := by
  induction l with
  | nil => intro i _; rfl
  | cons b rest ih =>
    intro i hi
    have h1 : skipline < ((i + 1 : Nat) : Int) := by push_cast; omega
    simp [deleteBackupsBeforeLoop, hi, ih (i + 1) h1]

theorem deleteBackupsBeforeLoop_drop (l : List BackupTime) :
    ∀ (i k : Nat), deleteBackupsBeforeLoop ((i + k : Nat) : Int) i l = l.drop (k + 1) := by
  induction l with
  | nil => intro i k; simp [deleteBackupsBeforeLoop]
  | cons b rest ih =>
    intro i k
    have hle : ¬ ((i : Int) > ((i + k : Nat) : Int)) := by push_cast; omega
    simp only [deleteBackupsBeforeLoop, hle, if_false, List.drop_succ_cons]
    cases k with
    | zero =>
      simp only [Nat.add_zero, List.drop_zero]
      exact deleteBackupsBeforeLoop_all _ rest (i + 1) (by push_cast; omega)
    | succ k =>
      have := ih (i + 1) k
      rw [show i + 1 + k = i + (k + 1) by omega] at this
      exact this

theorem deleteBackupsBefore_index (l : List BackupTime) (k : Nat) :
    deleteBackupsBefore l (k : Int) = l.drop (k + 1) := by
  have := deleteBackupsBeforeLoop_drop l 0 k
  simpa [deleteBackupsBefore] using this

/-- Splitting a list with distinct names at position `i`. -/
theorem split_at_name (catalog : List BackupTime) (hnd : (catalog.map (·.Name)).Nodup)
    (i : Nat) (h : i < catalog.length) :
    catalog = catalog.take i ++ catalog[i] :: catalog.drop (i + 1) ∧
    (∀ c ∈ catalog.take i, c.Name ≠ catalog[i].Name) ∧
    (∀ c ∈ catalog.drop (i + 1), c.Name ≠ catalog[i].Name) := by
  have hsplit : catalog = catalog.take i ++ catalog[i] :: catalog.drop (i + 1) := by
    rw [List.getElem_cons_drop, List.take_append_drop]
  refine ⟨hsplit, ?_, ?_⟩
  · intro c hc heq
    rw [hsplit, List.map_append, List.map_cons] at hnd
    have := (List.nodup_append.mp hnd).2.2
    exact this (List.mem_map_of_mem _ hc) (by rw [heq]; exact List.mem_cons_self _ _)
  · intro c hc heq
    rw [hsplit, List.map_append, List.map_cons] at hnd
    have := (List.nodup_cons.mp (List.nodup_append.mp hnd).2.1).1
    exact this (by rw [← heq]; exact List.mem_map_of_mem _ hc)

/-- With distinct names, a target at index `i` gives the skip line `i` and the
WAL name folded over the rows `0..i`. -/
theorem ComputeDeletionSkipline_present (catalog : List BackupTime) (target : String)
    (hnd : (catalog.map (·.Name)).Nodup) (i : Nat) (h : i < catalog.length)
    (hname : catalog[i].Name = target) :
    ComputeDeletionSkipline catalog target = ((i : Int), walFold "" (catalog.take (i + 1))) := by
  obtain ⟨hsplit, hpre, hpost⟩ := split_at_name catalog hnd i h
  rw [hname] at hpre hpost
  have key := skiplineLoop_split target (catalog.take i) (catalog.drop (i + 1)) catalog[i]
    hname hpre hpost (catalog.length : Int)
  rw [← hsplit] at key
  have hlen : (catalog.take i).length = i := by
    rw [List.length_take]; omega
  have htake : catalog.take i ++ [catalog[i]] = catalog.take (i + 1) := by
    rw [← List.concat_eq_append]; exact List.take_concat_get catalog i h
  simp only [ComputeDeletionSkipline, key, hlen, htake]

/-- A target that names no row gives the skip line `len(catalog)` and the WAL name
folded over the whole catalog. -/
theorem ComputeDeletionSkipline_absent (catalog : List BackupTime) (target : String)
    (hno : ∀ b ∈ catalog, b.Name ≠ target) :
    ComputeDeletionSkipline catalog target = ((catalog.length : Int), walFold "" catalog) := by
  simp [ComputeDeletionSkipline, skiplineLoop_no_match target catalog hno]

theorem walUpdate_of_ne_empty (w : String) (b : BackupTime) (hw : w ≠ "") :
    walUpdate w b = if b.WalFileName < w then b.WalFileName else w := by
  simp [walUpdate, hw, strGt_iff]

theorem walUpdate_empty (b : BackupTime) : walUpdate "" b = b.WalFileName := by
  simp [walUpdate]

/-- From a non-empty start, over rows with non-empty WAL names, the fold is the
minimum of the start and the rows. -/
theorem walFold_min_from (l : List BackupTime) (hl : ∀ b ∈ l, b.WalFileName ≠ "") :
    ∀ (w : String), w ≠ "" →
      walFold w l ≤ w ∧ (∀ b ∈ l, walFold w l ≤ b.WalFileName) ∧
      (walFold w l = w ∨ ∃ b ∈ l, b.WalFileName = walFold w l) := by
  induction l with
  | nil => intro w _; simp [walFold]
  | cons b rest ih =>
    intro w hw
    have hb : b.WalFileName ≠ "" := hl b (List.mem_cons_self _ _)
    have hrest : ∀ c ∈ rest, c.WalFileName ≠ "" := fun c hc => hl c (List.mem_cons_of_mem _ hc)
    have hstep : walFold w (b :: rest) = walFold (walUpdate w b) rest := rfl
    rw [hstep, walUpdate_of_ne_empty w b hw]
    by_cases hlt : b.WalFileName < w
    · rw [if_pos hlt]
      obtain ⟨h1, h2, h3⟩ := ih hrest b.WalFileName hb
      refine ⟨le_trans h1 (le_of_lt hlt), ?_, ?_⟩
      · intro c hc
        rcases List.mem_cons.mp hc with rfl | hc
        · exact h1
        · exact h2 c hc
      · right
        rcases h3 with h3 | ⟨c, hc, hceq⟩
        · exact ⟨b, List.mem_cons_self _ _, h3.symm⟩
        · exact ⟨c, List.mem_cons_of_mem _ hc, hceq⟩
    · rw [if_neg hlt]
      obtain ⟨h1, h2, h3⟩ := ih hrest w hw
      refine ⟨h1, ?_, ?_⟩
      · intro c hc
        rcases List.mem_cons.mp hc with rfl | hc
        · exact le_trans h1 (not_lt.mp hlt)
        · exact h2 c hc
      · rcases h3 with h3 | ⟨c, hc, hceq⟩
        · exact Or.inl h3
        · exact Or.inr ⟨c, List.mem_cons_of_mem _ hc, hceq⟩

/-- From the initial `""`, over rows with non-empty WAL names, the fold is the
minimum WAL name of the rows. -/
theorem walFold_min (l : List BackupTime) (hl : ∀ b ∈ l, b.WalFileName ≠ "") :
    (∀ b ∈ l, walFold "" l ≤ b.WalFileName) ∧
    (l ≠ [] → ∃ b ∈ l, b.WalFileName = walFold "" l) := by
  cases l with
  | nil => simp
  | cons b rest =>
    have hb : b.WalFileName ≠ "" := hl b (List.mem_cons_self _ _)
    have hrest : ∀ c ∈ rest, c.WalFileName ≠ "" := fun c hc => hl c (List.mem_cons_of_mem _ hc)
    have hstep : walFold "" (b :: rest) = walFold b.WalFileName rest := by
      show walFold (walUpdate "" b) rest = _
      rw [walUpdate_empty]
    rw [hstep]
    obtain ⟨h1, h2, h3⟩ := walFold_min_from rest hrest b.WalFileName hb
    refine ⟨?_, fun _ => ?_⟩
    · intro c hc
      rcases List.mem_cons.mp hc with rfl | hc
      · exact h1
      · exact h2 c hc
    · rcases h3 with h3 | ⟨c, hc, hceq⟩
      · exact ⟨b, List.mem_cons_self _ _, h3.symm⟩
      · exact ⟨c, List.mem_cons_of_mem _ hc, hceq⟩

/-! ## The catalog scan: skip line and dropped backups -/

/-- C1: for a catalog with pairwise distinct names, a target that is the name
of the backup at index `i` gives `skipLine = i`, and `deleteBackupsBefore`
then drops exactly the backups after index `i`, each once and in catalog
order; a target that names no backup gives `skipLine = len(catalog)`, and
`deleteBackupsBefore` drops nothing. -/
theorem skipline_and_dropped_backups (catalog : List BackupTime) (target : String)
    (hnd : (catalog.map (·.Name)).Nodup) :
    (∀ (i : Nat) (h : i < catalog.length), catalog[i].Name = target →
      (ComputeDeletionSkipline catalog target).1 = (i : Int) ∧
      deleteBackupsBefore catalog (ComputeDeletionSkipline catalog target).1
        = catalog.drop (i + 1)) ∧
    ((∀ b ∈ catalog, b.Name ≠ target) →
      (ComputeDeletionSkipline catalog target).1 = (catalog.length : Int) ∧
      deleteBackupsBefore catalog (ComputeDeletionSkipline catalog target).1 = []) := by
  constructor
  · intro i h hname
    rw [ComputeDeletionSkipline_present catalog target hnd i h hname]
    exact ⟨rfl, deleteBackupsBefore_index catalog i⟩
  · intro hno
    rw [ComputeDeletionSkipline_absent catalog target hno]
    refine ⟨rfl, ?_⟩
    rw [deleteBackupsBefore_index catalog catalog.length]
    exact List.drop_eq_nil_of_le (Nat.le_succ _)

/-- C1, on the worked example: target `C` gives skip line 2 and drops exactly
`[D]`; an absent target gives skip line 4 and drops nothing. -/
theorem skipline_and_dropped_backups_witness :
    (exampleCatalog.map (·.Name)).Nodup ∧
    ((ComputeDeletionSkipline exampleCatalog "C").1 = 2 ∧
      deleteBackupsBefore exampleCatalog (ComputeDeletionSkipline exampleCatalog "C").1
        = [⟨"D", 4, "4"⟩]) ∧
    ((ComputeDeletionSkipline exampleCatalog "Z").1 = 4 ∧
      deleteBackupsBefore exampleCatalog (ComputeDeletionSkipline exampleCatalog "Z").1 = []) :=
  ⟨by decide,
   (skipline_and_dropped_backups exampleCatalog "C" (by decide)).1 2 (by decide) (by decide),
   (skipline_and_dropped_backups exampleCatalog "Z" (by decide)).2 (by decide)⟩

/-! ## The catalog scan: the WAL cut line -/

/-- C2 as stated fails: with an empty `WalFileName` in the retained prefix the
running minimum is restarted (`[A(wal=""), B(wal="5")]`, target `B`: the scan
returns `(1, "5")`, and `"5"` is above the WAL name of the retained `A`); and
with a repeated name the minimum stops at the first match while the skip
line moves to the last (`[A(wal="5"), A(wal="1")]`, target `A`: the scan
returns `(1, "5")`, and `"5"` is above the WAL name of the retained row 1). -/
theorem wal_cut_not_minimum_counterexample :
    (ComputeDeletionSkipline [⟨"A", 1, ""⟩, ⟨"B", 2, "5"⟩] "B" = (1, "5") ∧
      deleteBackupsBefore [⟨"A", 1, ""⟩, ⟨"B", 2, "5"⟩] 1 = [] ∧
      ¬ ((ComputeDeletionSkipline [⟨"A", 1, ""⟩, ⟨"B", 2, "5"⟩] "B").2
          ≤ (⟨"A", 1, ""⟩ : BackupTime).WalFileName)) ∧
    (ComputeDeletionSkipline [⟨"A", 1, "5"⟩, ⟨"A", 2, "1"⟩] "A" = (1, "5") ∧
      deleteBackupsBefore [⟨"A", 1, "5"⟩, ⟨"A", 2, "1"⟩] 1 = [] ∧
      ¬ ((ComputeDeletionSkipline [⟨"A", 1, "5"⟩, ⟨"A", 2, "1"⟩] "A").2
          ≤ (⟨"A", 2, "1"⟩ : BackupTime).WalFileName)) := by
  refine ⟨⟨by decide, by decide, ?_⟩, ⟨by decide, by decide, ?_⟩⟩
  · have e : (ComputeDeletionSkipline [⟨"A", 1, ""⟩, ⟨"B", 2, "5"⟩] "B").2 = "5" := by decide
    rw [e, String.le_iff_toList_le]
    decide
  · have e : (ComputeDeletionSkipline [⟨"A", 1, "5"⟩, ⟨"A", 2, "1"⟩] "A").2 = "5" := by decide
    rw [e, String.le_iff_toList_le]
    decide

/-- C2, amended: for a catalog with pairwise distinct names and no empty
`WalFileName`, the `walSkipFileName` returned by `ComputeDeletionSkipline` is
the minimum `WalFileName` among the retained backups (indices `≤ skipLine`):
it is at most the WAL name of each of them and, for a non-empty catalog,
equal to one of them. -/
theorem wal_cut_is_minimum_of_retained (catalog : List BackupTime) (target : String)
    (hnd : (catalog.map (·.Name)).Nodup) (hw : ∀ b ∈ catalog, b.WalFileName ≠ "") :
    (∀ (i : Nat) (h : i < catalog.length),
      (i : Int) ≤ (ComputeDeletionSkipline catalog target).1 →
      (ComputeDeletionSkipline catalog target).2 ≤ catalog[i].WalFileName) ∧
    (catalog ≠ [] → ∃ (i : Nat) (h : i < catalog.length),
      (i : Int) ≤ (ComputeDeletionSkipline catalog target).1 ∧
      catalog[i].WalFileName = (ComputeDeletionSkipline catalog target).2) := by
  by_cases hex : ∃ b ∈ catalog, b.Name = target
  · obtain ⟨b, hb, hbn⟩ := hex
    obtain ⟨j, hj, hjb⟩ := List.getElem_of_mem hb
    have hname : catalog[j].Name = target := by rw [hjb]; exact hbn
    rw [ComputeDeletionSkipline_present catalog target hnd j hj hname]
    have hwt : ∀ c ∈ catalog.take (j + 1), c.WalFileName ≠ "" :=
      fun c hc => hw c (List.mem_of_mem_take hc)
    obtain ⟨hmin, hmem⟩ := walFold_min (catalog.take (j + 1)) hwt
    constructor
    · intro i h hi
      have hij : i < min (j + 1) catalog.length := by
        simp only [Int.ofNat_le] at hi
        omega
      exact hmin _ (List.mem_take_iff_getElem.mpr ⟨i, hij, rfl⟩)
    · intro _
      have hne : catalog.take (j + 1) ≠ [] := by
        intro hnil
        have := congrArg List.length hnil
        rw [List.length_take, List.length_nil] at this
        omega
      obtain ⟨c, hc, hceq⟩ := hmem hne
      obtain ⟨i, hi, hic⟩ := List.mem_take_iff_getElem.mp hc
      refine ⟨i, by omega, ?_, ?_⟩
      · simp only [Int.ofNat_le]; omega
      · rw [hic]; exact hceq
  · have hno : ∀ b ∈ catalog, b.Name ≠ target := fun b hb hbn => hex ⟨b, hb, hbn⟩
    rw [ComputeDeletionSkipline_absent catalog target hno]
    obtain ⟨hmin, hmem⟩ := walFold_min catalog hw
    constructor
    · intro i h _
      exact hmin _ (List.getElem_mem h)
    · intro hne
      obtain ⟨c, hc, hceq⟩ := hmem hne
      obtain ⟨i, hi, hic⟩ := List.getElem_of_mem hc
      refine ⟨i, hi, ?_, ?_⟩
      · simp only [Int.ofNat_le]; omega
      · rw [hic]; exact hceq

/-- C2, amended, on the worked example with target `C`: the WAL cut is `"1"`,
the minimum over `A`, `B`, `C`. -/
theorem wal_cut_is_minimum_of_retained_witness :
    (exampleCatalog.map (·.Name)).Nodup ∧ (∀ b ∈ exampleCatalog, b.WalFileName ≠ "") ∧
    ComputeDeletionSkipline exampleCatalog "C" = (2, "1") ∧
    (∀ (i : Nat) (h : i < exampleCatalog.length),
      (i : Int) ≤ (ComputeDeletionSkipline exampleCatalog "C").1 →
      (ComputeDeletionSkipline exampleCatalog "C").2 ≤ exampleCatalog[i].WalFileName) :=
  ⟨by decide, by decide, by decide,
   (wal_cut_is_minimum_of_retained exampleCatalog "C" (by decide) (by decide)).1⟩

/-! ## `ParseDeleteArguments` -/

/-- The parse of `[a, mode, c] ++ rest`, stage by stage. -/
theorem ParseDeleteArguments_cons (env : ParseEnv) (a mode c : String) (rest : List String) :
    ParseDeleteArguments env (a :: mode :: c :: rest) =
      if mode = "retain" ∨ mode = "before" then
        if c = "FULL" then parseTarget env { keywordResult mode with full := true } rest
        else if c = "FIND_FULL" then
          parseTarget env { keywordResult mode with findFull := true } rest
        else parseTarget env (keywordResult mode) (c :: rest)
      else .ok (DeleteCommandArguments.zero, 1) := by
  by_cases h1 : mode = "retain"
  · by_cases h2 : c = "FULL"
    · simp [ParseDeleteArguments, sliceFrom, parseMode, parseModifier, index, Except.bind,
        keywordResult, h1, h2]
    · by_cases h3 : c = "FIND_FULL"
      · simp [ParseDeleteArguments, sliceFrom, parseMode, parseModifier, index, Except.bind,
          keywordResult, h1, h3]
      · simp [ParseDeleteArguments, sliceFrom, parseMode, parseModifier, index, Except.bind,
          keywordResult, h1, h2, h3]
  · by_cases h1' : mode = "before"
    · by_cases h2 : c = "FULL"
      · simp [ParseDeleteArguments, sliceFrom, parseMode, parseModifier, index, Except.bind,
          keywordResult, h1', h2]
      · by_cases h3 : c = "FIND_FULL"
        · simp [ParseDeleteArguments, sliceFrom, parseMode, parseModifier, index, Except.bind,
            keywordResult, h1', h3]
        · simp [ParseDeleteArguments, sliceFrom, parseMode, parseModifier, index, Except.bind,
            keywordResult, h1', h2, h3]
    · simp [ParseDeleteArguments, sliceFrom, parseMode, index, Except.bind, h1, h1']

theorem keywordResult_retain (mode : String) :
    (keywordResult mode).retain = true ↔ mode = "retain" := by
  by_cases hm : mode = "retain" <;> simp [keywordResult, hm, DeleteCommandArguments.zero]

/-- The value of `confirmed` on a target followed by `rest`. -/
theorem confirmed_cons (t : String) (rest : List String) :
    confirmed (t :: rest)
      = .ok (decide (rest[0]? = some "--confirm" ∨ rest[0]? = some "-confirm")) := by
  cases rest with
  | nil => simp [confirmed]
  | cons p1 rest =>
    simp only [confirmed, index, Except.bind, List.length_cons, List.getElem?_cons_succ,
      List.getElem?_cons_zero, Option.some.injEq]
    by_cases h1 : p1 = "--confirm"
    · simp [h1]
    · by_cases h2 : p1 = "-confirm"
      · simp [h2]
      · simp [h1, h2]

/-- The result of `parseTarget` when a target is present. -/
theorem parseTarget_cons (env : ParseEnv) (result : DeleteCommandArguments) (t : String)
    (rest : List String) :
    parseTarget env result (t :: rest) =
      .ok (parseRetain
        { full := result.full, findFull := result.findFull, retain := result.retain,
          before := result.before, target := t,
          beforeTime := (match env.timeParse t with
            | some time => some time
            | none => result.beforeTime),
          dryrun := !decide (rest[0]? = some "--confirm" ∨ rest[0]? = some "-confirm") }
        (match env.timeParse t with
          | some time => if time > env.now then 1 else 0
          | none => 0)) := by
  simp only [parseTarget, List.length_cons, index, confirmed_cons, Except.bind]
  cases hp : env.timeParse t <;>
    by_cases hc : (rest[0]? = some "--confirm" ∨ rest[0]? = some "-confirm") <;>
    simp [hp, hc]

theorem parseTarget_nil (env : ParseEnv) (result : DeleteCommandArguments) :
    parseTarget env result [] = .ok (result, 1) := by
  simp [parseTarget]

theorem parseRetain_fst (result : DeleteCommandArguments) (calls : Nat) :
    (parseRetain result calls).1 = result := by
  unfold parseRetain
  split
  · split
    · rfl
    · split <;> rfl
  · rfl

theorem parseRetain_calls_le (result : DeleteCommandArguments) (calls : Nat) :
    calls ≤ (parseRetain result calls).2 := by
  unfold parseRetain
  split
  · split
    · exact Nat.le_succ _
    · split
      · exact Nat.le_succ _
      · exact Nat.le_refl _
  · exact Nat.le_refl _

theorem digitsValue_of_not_all (cs : List Char) (h : cs.all Char.isDigit = false) :
    ∀ n : Nat, digitsValue cs n = none := by
  induction cs with
  | nil => simp at h
  | cons ch rest ih =>
    intro n
    by_cases hd : ch.isDigit = true
    · have hr : rest.all Char.isDigit = false := by
        simpa [List.all_cons, hd] using h
      simp [digitsValue, hd, ih hr]
    · simp [digitsValue, hd]

/-- Go `Atoi` returns an error on every string that is not a decimal integer. -/
theorem Atoi_of_not_decimal (s : String) (h : isDecimalInteger s = false) : Atoi s = none := by
  unfold isDecimalInteger at h
  unfold Atoi atoiDigits
  by_cases he : (splitSign s.toList).2.isEmpty = true
  · rw [if_pos he]
  · have hall : (splitSign s.toList).2.all Char.isDigit = false := by
      rw [Bool.not_eq_true] at he
      rw [he] at h
      simpa using h
    rw [if_neg he, digitsValue_of_not_all _ hall 0]

theorem digitsValue_of_all (cs : List Char) (h : cs.all Char.isDigit = true) :
    ∀ n : Nat, ∃ m : Nat, digitsValue cs n = some m := by
  induction cs with
  | nil => intro n; exact ⟨n, rfl⟩
  | cons ch rest ih =>
    intro n
    simp only [List.all_cons, Bool.and_eq_true] at h
    obtain ⟨m, hm⟩ := ih h.2 (n * 10 + (ch.toNat - 48))
    exact ⟨m, by simp [digitsValue, h.1, hm]⟩

/-- Every decimal integer has a value, and only a decimal integer has one. -/
theorem decimalValue_isSome (s : String) :
    (decimalValue s).isSome = isDecimalInteger s := by
  unfold decimalValue isDecimalInteger
  by_cases he : (splitSign s.toList).2.isEmpty = true
  · rw [if_pos he, he]
    rfl
  · rw [if_neg he]
    rw [Bool.not_eq_true] at he
    rw [he]
    cases hall : (splitSign s.toList).2.all Char.isDigit with
    | false => rw [digitsValue_of_not_all _ hall 0]; rfl
    | true =>
      obtain ⟨m, hm⟩ := digitsValue_of_all _ hall 0
      rw [hm]
      rfl

/-- On a decimal numeral `Atoi` returns its value when it is in the range of
`int`, and an error otherwise. -/
theorem Atoi_of_decimalValue (s : String) (v : Int) (h : decimalValue s = some v) :
    Atoi s = if -(2 : Int) ^ 63 ≤ v ∧ v < (2 : Int) ^ 63 then some v else none := by
  unfold decimalValue at h
  unfold Atoi atoiDigits
  by_cases he : (splitSign s.toList).2.isEmpty = true
  · rw [if_pos he] at h
    cases h
  · rw [if_neg he] at h
    rw [if_neg he]
    cases hd : digitsValue (splitSign s.toList).2 0 with
    | none => rw [hd] at h; cases h
    | some n =>
      rw [hd] at h
      simp only [Option.some.injEq] at h
      simp only [h]

/-- In `retain` mode a target that is not a decimal integer, or on which `Atoi`
fails, or whose value is at most 0, reaches the fallback. -/
theorem parseRetain_rejects (result : DeleteCommandArguments) (calls : Nat)
    (hr : result.retain = true)
    (hbad : isDecimalInteger result.target = false ∨ Atoi result.target = none ∨
      ∃ v, decimalValue result.target = some v ∧ v ≤ 0) :
    1 ≤ (parseRetain result calls).2 := by
  unfold parseRetain
  rw [if_pos hr]
  rcases hbad with h | h | ⟨v, hv, hle⟩
  · rw [Atoi_of_not_decimal _ h]
    exact Nat.le_add_left 1 calls
  · rw [h]
    exact Nat.le_add_left 1 calls
  · rw [Atoi_of_decimalValue _ v hv]
    by_cases hrange : -(2 : Int) ^ 63 ≤ v ∧ v < (2 : Int) ^ 63
    · rw [if_pos hrange]
      simp only [hle, if_true]
      exact Nat.le_add_left 1 calls
    · rw [if_neg hrange]
      exact Nat.le_add_left 1 calls

/-- The parse of an argument list with a valid keyword and a target `t`. -/
theorem ParseDeleteArguments_with_target (env : ParseEnv) (a mode c : String)
    (rest : List String) (hmode : mode = "retain" ∨ mode = "before") (t : String)
    (ht : (a :: mode :: c :: rest)[targetIndex (a :: mode :: c :: rest)]? = some t) :
    ∃ R : DeleteCommandArguments,
      ParseDeleteArguments env (a :: mode :: c :: rest)
        = .ok (parseRetain R (futureDateCalls env t)) ∧
      R.target = t ∧ (R.retain = true ↔ mode = "retain") ∧
      (R.dryrun = true ↔ ¬ confirmFollows (a :: mode :: c :: rest)) := by
  rw [ParseDeleteArguments_cons, if_pos hmode]
  by_cases h2 : c = "FULL"
  · have hti : targetIndex (a :: mode :: c :: rest) = 3 := by simp [targetIndex, h2]
    rw [hti] at ht
    unfold confirmFollows
    rw [hti, if_pos h2]
    cases rest with
    | nil => simp at ht
    | cons t' rest' =>
      have : t' = t := by simpa using ht
      subst this
      rw [parseTarget_cons]
      refine ⟨_, rfl, rfl, keywordResult_retain mode, ?_⟩
      simp
  · by_cases h3 : c = "FIND_FULL"
    · have hti : targetIndex (a :: mode :: c :: rest) = 3 := by simp [targetIndex, h3]
      rw [hti] at ht
      unfold confirmFollows
      rw [hti, if_neg h2, if_pos h3]
      cases rest with
      | nil => simp at ht
      | cons t' rest' =>
        have : t' = t := by simpa using ht
        subst this
        rw [parseTarget_cons]
        refine ⟨_, rfl, rfl, keywordResult_retain mode, ?_⟩
        simp
    · have hti : targetIndex (a :: mode :: c :: rest) = 2 := by simp [targetIndex, h2, h3]
      rw [hti] at ht
      unfold confirmFollows
      rw [hti, if_neg h2, if_neg h3]
      have : c = t := by simpa using ht
      subst this
      rw [parseTarget_cons]
      refine ⟨_, rfl, rfl, keywordResult_retain mode, ?_⟩
      simp

/-- The parse of an argument list with a valid keyword and no target. -/
theorem ParseDeleteArguments_no_target (env : ParseEnv) (a mode c : String)
    (rest : List String) (hmode : mode = "retain" ∨ mode = "before")
    (ht : (a :: mode :: c :: rest)[targetIndex (a :: mode :: c :: rest)]? = none) :
    ∃ R, ParseDeleteArguments env (a :: mode :: c :: rest) = .ok (R, 1) := by
  rw [ParseDeleteArguments_cons, if_pos hmode]
  by_cases h2 : c = "FULL"
  · have hti : targetIndex (a :: mode :: c :: rest) = 3 := by simp [targetIndex, h2]
    rw [hti] at ht
    rw [if_pos h2]
    cases rest with
    | nil => rw [parseTarget_nil]; exact ⟨_, rfl⟩
    | cons t' rest' => simp at ht
  · by_cases h3 : c = "FIND_FULL"
    · have hti : targetIndex (a :: mode :: c :: rest) = 3 := by simp [targetIndex, h3]
      rw [hti] at ht
      rw [if_neg h2, if_pos h3]
      cases rest with
      | nil => rw [parseTarget_nil]; exact ⟨_, rfl⟩
      | cons t' rest' => simp at ht
    · have hti : targetIndex (a :: mode :: c :: rest) = 2 := by simp [targetIndex, h2, h3]
      rw [hti] at ht
      simp at ht

/-- The parse of an argument list that is too short or has no valid keyword. -/
theorem ParseDeleteArguments_bad_keyword (env : ParseEnv) (args : List String)
    (h : args.length < 3 ∨ (args[1]? ≠ some "retain" ∧ args[1]? ≠ some "before")) :
    ParseDeleteArguments env args = .ok (DeleteCommandArguments.zero, 1) := by
  by_cases hlen : args.length < 3
  · simp [ParseDeleteArguments, hlen]
  · rcases h with h | ⟨h1, h2⟩
    · exact absurd h hlen
    · match args, hlen with
      | a :: mode :: c :: rest, _ =>
        have hm : ¬ (mode = "retain" ∨ mode = "before") := by
          simp only [List.getElem?_cons_succ, List.getElem?_cons_zero, ne_eq,
            Option.some.injEq] at h1 h2
          exact fun hh => hh.elim h1 h2
        rw [ParseDeleteArguments_cons, if_neg hm]
      | [], hl => simp at hl
      | [_], hl => simp at hl
      | [_, _], hl => simp at hl

/-- C5: `ParseDeleteArguments` never indexes outside its argument list (it always
returns), and it invokes the fallback function when `len(args) < 3`, when
`args[1]` is neither `retain` nor `before`, when no target remains after the
keyword and a `FULL` / `FIND_FULL` modifier, when in `retain` mode the target
is not a decimal integer or denotes an integer `≤ 0` of any size (or is one
on which `Atoi` fails for any other reason), and when the target parses as a
timestamp later than the current time. -/
theorem parse_rejects_usage_errors (env : ParseEnv) (args : List String) :
    (∃ r, ParseDeleteArguments env args = .ok r) ∧
    (args.length < 3 → FallbackInvoked env args) ∧
    (args[1]? ≠ some "retain" → args[1]? ≠ some "before" → FallbackInvoked env args) ∧
    (args[targetIndex args]? = none → FallbackInvoked env args) ∧
    (∀ t : String, args[1]? = some "retain" → args[targetIndex args]? = some t →
      (isDecimalInteger t = false ∨ Atoi t = none ∨
        ∃ v, decimalValue t = some v ∧ v ≤ 0) →
      FallbackInvoked env args) ∧
    (∀ (t : String) (time : Int), args[targetIndex args]? = some t →
      env.timeParse t = some time → time > env.now → FallbackInvoked env args) := by
  by_cases hbad : args.length < 3 ∨ (args[1]? ≠ some "retain" ∧ args[1]? ≠ some "before")
  · have hp := ParseDeleteArguments_bad_keyword env args hbad
    have hf : FallbackInvoked env args := ⟨_, hp, Nat.le_refl 1⟩
    exact ⟨⟨_, hp⟩, fun _ => hf, fun _ _ => hf, fun _ => hf, fun _ _ _ _ => hf,
      fun _ _ _ _ _ => hf⟩
  · have hlen : ¬ args.length < 3 := fun h => hbad (Or.inl h)
    match args, hbad, hlen with
    | [], _, hl => simp at hl
    | [_], _, hl => simp at hl
    | [_, _], _, hl => simp at hl
    | a :: mode :: c :: rest, hbad, hlen =>
      have hmode : mode = "retain" ∨ mode = "before" := by
        by_contra hm
        apply hbad
        right
        simp only [List.getElem?_cons_succ, List.getElem?_cons_zero, ne_eq, Option.some.injEq]
        exact ⟨fun h => hm (Or.inl h), fun h => hm (Or.inr h)⟩
      cases ht : (a :: mode :: c :: rest)[targetIndex (a :: mode :: c :: rest)]? with
      | none =>
        obtain ⟨R, hR⟩ := ParseDeleteArguments_no_target env a mode c rest hmode ht
        have hf : FallbackInvoked env (a :: mode :: c :: rest) := ⟨_, hR, Nat.le_refl 1⟩
        exact ⟨⟨_, hR⟩, fun _ => hf, fun _ _ => hf, fun _ => hf, fun _ _ _ _ => hf,
          fun _ _ _ _ _ => hf⟩
      | some t =>
        obtain ⟨R, hR, hRt, hRr, _⟩ :=
          ParseDeleteArguments_with_target env a mode c rest hmode t ht
        refine ⟨⟨_, hR⟩, fun h => absurd h hlen, ?_, ?_, ?_, ?_⟩
        · intro h1 h2
          exfalso
          simp only [List.getElem?_cons_succ, List.getElem?_cons_zero, ne_eq,
            Option.some.injEq] at h1 h2
          exact hmode.elim h1 h2
        · intro h
          exact absurd h (by simp)
        · intro t' hretain ht' hbadcount
          have htt : t' = t := by
            have := ht'.symm
            simpa using this
          subst htt
          have hr : R.retain = true := by
            apply hRr.mpr
            simpa using hretain
          refine ⟨_, hR, ?_⟩
          apply parseRetain_rejects R _ hr
          rw [hRt]
          exact hbadcount
        · intro t' time ht' hparse hfuture
          have htt : t' = t := by
            have := ht'.symm
            simpa using this
          subst htt
          refine ⟨_, hR, ?_⟩
          have hcalls : futureDateCalls env t' = 1 := by
            simp [futureDateCalls, hparse, hfuture]
          have := parseRetain_calls_le R (futureDateCalls env t')
          omega

/-- C5, on examples: a non-positive count, a count below the range of `int`, a
count that is not a number, a missing target and a future timestamp all
reach the fallback function. -/
theorem parse_rejects_usage_errors_witness :
    FallbackInvoked exampleClock ["delete"] ∧
    FallbackInvoked exampleClock ["delete", "keep", "5"] ∧
    FallbackInvoked exampleClock ["delete", "retain", "FULL"] ∧
    FallbackInvoked exampleClock ["delete", "retain", "0"] ∧
    FallbackInvoked exampleClock ["delete", "retain", "-9223372036854775809"] ∧
    FallbackInvoked exampleClock ["delete", "retain", "FIND_FULL", "five"] ∧
    FallbackInvoked exampleClock ["delete", "before", "2099-01-01T00:00:00Z"] :=
  ⟨(parse_rejects_usage_errors exampleClock ["delete"]).2.1 (by decide),
   (parse_rejects_usage_errors exampleClock ["delete", "keep", "5"]).2.2.1
     (by decide) (by decide),
   (parse_rejects_usage_errors exampleClock ["delete", "retain", "FULL"]).2.2.2.1 (by decide),
   (parse_rejects_usage_errors exampleClock ["delete", "retain", "0"]).2.2.2.2.1 "0"
     (by decide) (by decide) (Or.inr (Or.inr ⟨0, by decide, by decide⟩)),
   (parse_rejects_usage_errors exampleClock
      ["delete", "retain", "-9223372036854775809"]).2.2.2.2.1 "-9223372036854775809"
     (by decide) (by decide) (Or.inr (Or.inr ⟨-9223372036854775809, by decide, by decide⟩)),
   (parse_rejects_usage_errors exampleClock ["delete", "retain", "FIND_FULL", "five"]).2.2.2.2.1
     "five" (by decide) (by decide) (Or.inl (by decide)),
   (parse_rejects_usage_errors exampleClock ["delete", "before", "2099-01-01T00:00:00Z"]).2.2.2.2.2
     "2099-01-01T00:00:00Z" 100 (by decide) (by decide) (by decide)⟩

/-! ## `deleteBeforeTarget` -/

theorem planAndDelete_some (env : DeleteEnv) (target : String) (catalog : List BackupTime)
    (dryRun : Bool) :
    planAndDelete env target (some catalog) dryRun
      = .ComputeDeletionSkipline catalog target ::
          deletionPhase env catalog (ComputeDeletionSkipline catalog target).1
            (ComputeDeletionSkipline catalog target).2 dryRun := by
  simp [planAndDelete, resolveBackups]

theorem planAndDelete_dry_run_no_deletion (env : DeleteEnv) (target : String)
    (backups : Option (List BackupTime)) :
    ∀ call ∈ planAndDelete env target backups true, call.isDeletion = false := by
  intro call h
  unfold planAndDelete resolveBackups at h
  cases backups with
  | some catalog =>
    simp only [deletionPhase, Bool.not_true, Bool.false_eq_true, if_false, List.nil_append,
      List.mem_cons, List.mem_singleton, List.not_mem_nil, or_false] at h
    rcases h with rfl | rfl <;> rfl
  | none =>
    cases hg : env.GetBackups with
    | error e =>
      simp only [hg, List.mem_cons, List.mem_singleton, List.not_mem_nil, or_false] at h
      rcases h with rfl | rfl <;> rfl
    | ok catalog =>
      simp only [hg, deletionPhase, Bool.not_true, Bool.false_eq_true, if_false,
        List.singleton_append, List.mem_cons, List.mem_singleton, List.not_mem_nil,
        or_false] at h
      rcases h with rfl | rfl | rfl <;> rfl

/-- C3 as stated fails in its last part: for a target whose sentinel is
incremental, without `findFull`, a dry run ends in `log.Fatalf` right after
the sentinel is fetched; no skip line and no WAL cut are computed. -/
theorem dry_run_plan_not_computed_counterexample :
    deleteBeforeTarget exampleStore "E" false (some exampleCatalog) true
      = [.fetchSentinel "E", .logFatal] ∧
    (deleteBeforeTarget exampleStore "E" false (some exampleCatalog) true).any
      DeleteCall.isCompute = false := by
  constructor <;> decide

/-- C3, amended: dry run is the default (for every accepted argument list the
`dryrun` flag is true unless the argument right after the target is
`--confirm` or `-confirm`); `deleteBeforeTarget` with `dryRun = true` never
calls `deleteWALBefore`, `deleteBackupsBefore` or `dropBackup`; and whenever
the target resolves (the sentinel is not incremental, or `findFull` is set),
the skip line and the WAL cut are still computed, on the catalog and the
effective target, while an unresolved target ends the run before that. -/
theorem dry_run_default_and_no_deletion (penv : ParseEnv) (args : List String)
    (r : DeleteCommandArguments × Nat) (env : DeleteEnv) (target : String) (findFull : Bool)
    (backups : Option (List BackupTime)) (catalog : List BackupTime) :
    (ParseDeleteArguments penv args = .ok r → r.2 = 0 →
      (r.1.dryrun = true ↔ ¬ confirmFollows args)) ∧
    (∀ call ∈ deleteBeforeTarget env target findFull backups true, call.isDeletion = false) ∧
    (∀ effective : String,
      resolveTarget (env.fetchSentinel target) target findFull = .ok effective →
      deleteBeforeTarget env target findFull (some catalog) true
        = [.fetchSentinel target, .ComputeDeletionSkipline catalog effective,
            .dryRunFinished]) ∧
    (∀ call : DeleteCall,
      resolveTarget (env.fetchSentinel target) target findFull = .error call →
      deleteBeforeTarget env target findFull (some catalog) true
        = [.fetchSentinel target, call]) := by
  refine ⟨?_, ?_, ?_, ?_⟩
  · intro hparse haccept
    by_cases hbad : args.length < 3 ∨ (args[1]? ≠ some "retain" ∧ args[1]? ≠ some "before")
    · rw [ParseDeleteArguments_bad_keyword penv args hbad] at hparse
      cases hparse
      simp at haccept
    · have hlen : ¬ args.length < 3 := fun h => hbad (Or.inl h)
      match args, hbad, hlen, hparse with
      | [], _, hl, _ => simp at hl
      | [_], _, hl, _ => simp at hl
      | [_, _], _, hl, _ => simp at hl
      | a :: mode :: c :: rest, hbad, hlen, hparse =>
        have hmode : mode = "retain" ∨ mode = "before" := by
          by_contra hm
          apply hbad
          right
          simp only [List.getElem?_cons_succ, List.getElem?_cons_zero, ne_eq,
            Option.some.injEq]
          exact ⟨fun h => hm (Or.inl h), fun h => hm (Or.inr h)⟩
        cases ht : (a :: mode :: c :: rest)[targetIndex (a :: mode :: c :: rest)]? with
        | none =>
          obtain ⟨R, hR⟩ := ParseDeleteArguments_no_target penv a mode c rest hmode ht
          rw [hR] at hparse
          cases hparse
          simp at haccept
        | some t =>
          obtain ⟨R, hR, _, _, hdry⟩ :=
            ParseDeleteArguments_with_target penv a mode c rest hmode t ht
          rw [hR] at hparse
          cases hparse
          rw [parseRetain_fst]
          exact hdry
  · intro call h
    unfold deleteBeforeTarget at h
    rcases List.mem_cons.mp h with rfl | h
    · rfl
    · cases hres : resolveTarget (env.fetchSentinel target) target findFull with
      | error c =>
        rw [hres] at h
        simp only [List.mem_singleton] at h
        subst h
        unfold resolveTarget at hres
        split at hres
        · split at hres
          · split at hres
            · cases hres
            · cases hres; rfl
          · cases hres; rfl
        · cases hres
      | ok effective =>
        rw [hres] at h
        exact planAndDelete_dry_run_no_deletion env effective backups call h
  · intro effective hres
    simp [deleteBeforeTarget, hres, planAndDelete_some, deletionPhase]
  · intro call hres
    simp [deleteBeforeTarget, hres]

/-- C3, amended, on examples: `retain 5` is a dry run and `retain 5 --confirm`
is not; a dry run towards `C` in the worked catalog computes the plan and
deletes nothing. -/
theorem dry_run_default_and_no_deletion_witness :
    (ParseDeleteArguments exampleClock ["delete", "retain", "5"]
        = .ok (⟨false, false, true, false, "5", none, true⟩, 0) ∧
      ¬ confirmFollows ["delete", "retain", "5"]) ∧
    deleteBeforeTarget exampleStore "C" false (some exampleCatalog) true
      = [.fetchSentinel "C", .ComputeDeletionSkipline exampleCatalog "C", .dryRunFinished] ∧
    deleteBeforeTarget exampleStore "E" false (some exampleCatalog) true
      = [.fetchSentinel "E", .logFatal] :=
  ⟨⟨rfl, ((dry_run_default_and_no_deletion exampleClock ["delete", "retain", "5"]
      (⟨false, false, true, false, "5", none, true⟩, 0) exampleStore "C" false none
      exampleCatalog).1 rfl rfl).mp rfl⟩,
   (dry_run_default_and_no_deletion exampleClock [] (DeleteCommandArguments.zero, 1)
      exampleStore "C" false none exampleCatalog).2.2.1 "C" rfl,
   (dry_run_default_and_no_deletion exampleClock [] (DeleteCommandArguments.zero, 1)
      exampleStore "E" false none exampleCatalog).2.2.2 .logFatal rfl⟩

/-- The loop over `Decompressors` ends without a `return` when no decompressor
has the extension. -/
theorem decompressLoop_none {ρ : Type} (fileExtension : String) (readCloser : ρ)
    (ds : List (Decompressor ρ)) (h : ∀ d ∈ ds, d.FileExtension ≠ fileExtension) :
    decompressLoop fileExtension readCloser ds = none := by
  induction ds with
  | nil => rfl
  | cons d rest ih =>
    have hd : fileExtension ≠ d.FileExtension := fun e => h d (List.mem_cons_self _ _) e.symm
    have hrest : ∀ d' ∈ rest, d'.FileExtension ≠ fileExtension :=
      fun d' hd' => h d' (List.mem_cons_of_mem _ hd')
    simp [decompressLoop, hd, ih hrest]

/-- The `switch` when no decompressor has the extension, once the stream is open
and decrypted. -/
theorem DecryptAndDecompressTar_switch {ρ : Type} (env : ExtractEnv ρ)
    (readerMaker : ReaderMaker ρ) (crypter : Crypter ρ) (stream : ρ)
    (hopen : readerMaker.Reader = .ok stream)
    (hdecrypt : crypter.IsUsed = true → ∃ plain, crypter.Decrypt stream = .ok plain)
    (hnone : ∀ d ∈ env.Decompressors,
      d.FileExtension ≠ env.GetFileExtension readerMaker.Path) :
    ∃ readCloser : ρ, DecryptAndDecompressTar env readerMaker crypter
      = extensionSwitch env readerMaker.Path (env.GetFileExtension readerMaker.Path)
          readCloser := by
  unfold DecryptAndDecompressTar
  rw [hopen]
  by_cases hused : crypter.IsUsed = true
  · obtain ⟨plain, hplain⟩ := hdecrypt hused
    refine ⟨plain, ?_⟩
    simp only [hused, if_true, hplain]
    rw [decompressLoop_none _ _ _ hnone]
  · refine ⟨stream, ?_⟩
    have hf : crypter.IsUsed = false := by simpa using hused
    simp only [hf, Bool.false_eq_true, if_false]
    rw [decompressLoop_none _ _ _ hnone]

/-- C6: for a member whose stream opens and, when encryption is in use,
decrypts without error, and whose extension is the extension of no registered
decompressor: if the extension is neither `tar` nor `nop`,
`DecryptAndDecompressTar` returns an error whose cause is
`UnsupportedFileTypeError` with the member's path and extension, and writes
nothing; if the extension is `nop`, it returns no error and writes nothing. -/
theorem unsupported_extension_is_reported {ρ : Type} (env : ExtractEnv ρ)
    (readerMaker : ReaderMaker ρ) (crypter : Crypter ρ) (stream : ρ)
    (hopen : readerMaker.Reader = .ok stream)
    (hdecrypt : crypter.IsUsed = true → ∃ plain, crypter.Decrypt stream = .ok plain)
    (hnone : ∀ d ∈ env.Decompressors,
      d.FileExtension ≠ env.GetFileExtension readerMaker.Path) :
    (env.GetFileExtension readerMaker.Path ≠ "tar" →
      env.GetFileExtension readerMaker.Path ≠ "nop" →
      ∃ err : GoError,
        (DecryptAndDecompressTar env readerMaker crypter).1 = some err ∧
        err.Cause = .UnsupportedFileTypeError readerMaker.Path
          (env.GetFileExtension readerMaker.Path) ∧
        (DecryptAndDecompressTar env readerMaker crypter).2 = []) ∧
    (env.GetFileExtension readerMaker.Path = "nop" →
      DecryptAndDecompressTar env readerMaker crypter = (none, [])) := by
  obtain ⟨readCloser, hsw⟩ :=
    DecryptAndDecompressTar_switch env readerMaker crypter stream hopen hdecrypt hnone
  rw [hsw]
  constructor
  · intro htar hnop
    by_cases hlzo : env.GetFileExtension readerMaker.Path = "lzo"
    · refine ⟨.wrapped (.UnsupportedFileTypeError readerMaker.Path
          (env.GetFileExtension readerMaker.Path))
          "DecryptAndDecompressTar: lzo linked to this WAL-G binary", ?_, rfl, ?_⟩
      · simp [extensionSwitch, hlzo, Wrap]
      · simp [extensionSwitch, hlzo]
    · refine ⟨.wrapped (.UnsupportedFileTypeError readerMaker.Path
          (env.GetFileExtension readerMaker.Path)) "DecryptAndDecompressTar:", ?_, rfl, ?_⟩
      · simp [extensionSwitch, htar, hnop, hlzo, Wrap]
      · simp [extensionSwitch, htar, hnop, hlzo]
  · intro hnop
    simp [extensionSwitch, hnop]

/-- C6, on examples: with the codecs `lz4` and `lzma`, a member `part_1.tar.zst`
is reported as unsupported with its path and the extension `zst`, and a
member `part_1.nop` gives no error; neither writes anything. -/
theorem unsupported_extension_is_reported_witness :
    (∃ err : GoError,
      (DecryptAndDecompressTar exampleExtractEnv (exampleMember "part_1.tar.zst") noCrypter).1
        = some err ∧
      err.Cause = .UnsupportedFileTypeError "part_1.tar.zst" "zst" ∧
      (DecryptAndDecompressTar exampleExtractEnv (exampleMember "part_1.tar.zst") noCrypter).2
        = []) ∧
    DecryptAndDecompressTar exampleExtractEnv (exampleMember "part_1.nop") noCrypter
      = (none, []) :=
  ⟨(unsupported_extension_is_reported exampleExtractEnv (exampleMember "part_1.tar.zst")
      noCrypter [1, 2, 3] rfl (fun h => absurd h (by decide)) (by decide)).1
      (by decide) (by decide),
   (unsupported_extension_is_reported exampleExtractEnv (exampleMember "part_1.nop")
      noCrypter [1, 2, 3] rfl (fun h => absurd h (by decide)) (by decide)).2 (by decide)⟩

/-! ## `EmptyWriteIgnorer` -/

/-- Through `EmptyWriteIgnorer` the wrapped writer ends in the state it reaches on
the non-empty slices alone. -/
theorem runWrites_ignorer_state {σ : Type} (e : WriteCloser σ) (ps : List (List UInt8)) :
    ∀ s : σ, (runWrites (EmptyWriteIgnorer.Write e) s ps).1
      = (runWrites e.Write s (ps.filter fun p => p.length != 0)).1 := by
  induction ps with
  | nil => intro s; rfl
  | cons p rest ih =>
    intro s
    by_cases hp : p.length = 0
    · simp [runWrites, EmptyWriteIgnorer.Write, hp, ih s]
    · simp [runWrites, EmptyWriteIgnorer.Write, hp, ih]

theorem runWrites_recording (ps : List (List UInt8)) :
    ∀ s : List (List UInt8), (runWrites recordingWriter.Write s ps).1 = s ++ ps := by
  induction ps with
  | nil => intro s; simp [runWrites]
  | cons p rest ih =>
    intro s
    show (runWrites recordingWriter.Write (s ++ [p]) rest).1 = s ++ p :: rest
    rw [ih]
    simp

theorem flatten_filter_nonempty (ps : List (List UInt8)) :
    (ps.filter fun p => p.length != 0).flatten = ps.flatten := by
  induction ps with
  | nil => rfl
  | cons p rest ih =>
    by_cases hp : p.length = 0
    · have : p = [] := List.length_eq_zero.mp hp
      simp [this, ih]
    · simp [hp, ih]

/-- C7: `EmptyWriteIgnorer` suppresses zero-length writes and forwards the others
unchanged. A zero-length `Write` returns `(0, nil)` and leaves the wrapped
writer alone; any other `Write` is the `Write` of the wrapped writer; so for
every sequence of writes the wrapped writer goes through exactly the
non-empty slices, in order, and a writer that records what it receives holds
exactly those slices, whose concatenation is the concatenation of all bytes
written. Writing `[]byte{}` and then further bytes delivers all of them. -/
theorem empty_writes_are_suppressed {σ : Type} (e : WriteCloser σ) (s : σ)
    (ps : List (List UInt8)) (p : List UInt8) :
    EmptyWriteIgnorer.Write e s [] = (s, (0, none)) ∧
    (p ≠ [] → EmptyWriteIgnorer.Write e s p = e.Write s p) ∧
    (runWrites (EmptyWriteIgnorer.Write e) s ps).1
      = (runWrites e.Write s (ps.filter fun q => q.length != 0)).1 ∧
    (runWrites (EmptyWriteIgnorer.Write recordingWriter) [] ps).1
      = ps.filter (fun q => q.length != 0) ∧
    ((runWrites (EmptyWriteIgnorer.Write recordingWriter) [] ps).1).flatten = ps.flatten ∧
    (runWrites (EmptyWriteIgnorer.Write recordingWriter) [] [[], [1, 2, 3], [], [4]]).1
      = [[1, 2, 3], [4]] := by
  have hrec : (runWrites (EmptyWriteIgnorer.Write recordingWriter) [] ps).1
      = ps.filter (fun q => q.length != 0) := by
    rw [runWrites_ignorer_state, runWrites_recording, List.nil_append]
  refine ⟨rfl, ?_, runWrites_ignorer_state e ps s, hrec, ?_, by decide⟩
  · intro hp
    have : p.length ≠ 0 := fun h => hp (List.length_eq_zero.mp h)
    simp [EmptyWriteIgnorer.Write, this]
  · rw [hrec, flatten_filter_nonempty]

/-- C7, on an example: an empty write followed by three bytes. -/
theorem empty_writes_are_suppressed_witness :
    EmptyWriteIgnorer.Write recordingWriter [] [1, 2, 3] = ([[1, 2, 3]], (3, none)) :=
  ((empty_writes_are_suppressed recordingWriter [] [] [1, 2, 3]).2.1 (by decide)).trans
    (by decide)

/-! ## `ExtractAll` -/

/-- C8: for an empty member list `ExtractAll` returns `NoFilesToExtractError`, for
every `TarInterpreter` and every environment, without making a pass (so
without handing the `TarInterpreter` to anything), and the result is the
same on every call. -/
theorem extract_all_empty {α τ : Type} (env : PipelineEnv α τ) (fuel : Nat)
    (tarInterpreter : τ) :
    ExtractAll env fuel tarInterpreter [] = some (some NoFilesToExtractError, []) := by
  simp [ExtractAll]

theorem extractLoop_nil {α τ : Type} (env : PipelineEnv α τ) (ti : τ) (fuel pass : Nat)
    (c : Int) (err : Option GoError) :
    extractLoop env ti fuel pass [] c err = some (err, []) := by
  unfold extractLoop
  simp

theorem extractLoop_zero {α τ : Type} (env : PipelineEnv α τ) (ti : τ) (pass : Nat)
    (run : List α) (hne : run ≠ []) (c : Int) (err : Option GoError) :
    extractLoop env ti 0 pass run c err = none := by
  unfold extractLoop
  have : run.length > 0 := List.length_pos.mpr hne
  simp [this]

/-- One turn of the loop on a non-empty `currentRun`. -/
theorem extractLoop_succ {α τ : Type} (env : PipelineEnv α τ) (ti : τ) (fuel pass : Nat)
    (run : List α) (hne : run ≠ []) (c : Int) (err : Option GoError) :
    extractLoop env ti (fuel + 1) pass run c err =
      if c ≤ 1 ∧ (passRecord env ti pass run c).failed.length = run.length then
        some ((passRecord env ti pass run c).err, [passRecord env ti pass run c])
      else
        (extractLoop env ti fuel (pass + 1) (passRecord env ti pass run c).failed (nextLimit c)
          (passRecord env ti pass run c).err).map
          fun out => (out.1, passRecord env ti pass run c :: out.2) := by
  have hpos : run.length > 0 := List.length_pos.mpr hne
  rw [extractLoop]
  simp only [hpos, if_true, passRecord, nextLimit]
  by_cases hc : c > 1
  · have hc' : ¬ c ≤ 1 := by omega
    simp [hc, hc']
  · have hc' : c ≤ 1 := by omega
    by_cases hall : (env.tryExtractFiles pass run ti c).1.length = run.length
    · simp [hc, hc', hall]
    · simp [hc, hc', hall]

/-- A run of `extractLoop` that returns is a `LoopTrace`. -/
theorem extractLoop_trace {α τ : Type} (env : PipelineEnv α τ) (ti : τ) :
    ∀ (fuel pass : Nat) (run : List α) (c : Int) (err0 : Option GoError)
      (out : Option GoError × List (PassRecord α)),
      run ≠ [] → extractLoop env ti fuel pass run c err0 = some out →
      LoopTrace env ti pass run c out.1 out.2 := by
  intro fuel
  induction fuel with
  | zero =>
    intro pass run c err0 out hne h
    rw [extractLoop_zero env ti pass run hne] at h
    cases h
  | succ fuel ih =>
    intro pass run c err0 out hne h
    rw [extractLoop_succ env ti fuel pass run hne] at h
    by_cases hstop : c ≤ 1 ∧ (passRecord env ti pass run c).failed.length = run.length
    · rw [if_pos hstop] at h
      cases h
      exact LoopTrace.giveUp pass run c hne hstop.1 hstop.2
    · rw [if_neg hstop] at h
      by_cases hnil : (passRecord env ti pass run c).failed = []
      · rw [hnil, extractLoop_nil] at h
        cases h
        exact LoopTrace.finish pass run c hne hstop hnil
      · cases hrec : extractLoop env ti fuel (pass + 1) (passRecord env ti pass run c).failed
          (nextLimit c) (passRecord env ti pass run c).err with
        | none => rw [hrec] at h; cases h
        | some out' =>
          rw [hrec] at h
          cases h
          exact LoopTrace.retry pass run c hne hstop hnil out'.1 out'.2
            (ih _ _ _ _ out' hnil hrec)

/-- With passes that do not lengthen the list, `c.toNat + len(run)` turns of the
loop are enough. -/
theorem extractLoop_returns {α τ : Type} (env : PipelineEnv α τ) (ti : τ)
    (hb : PassBounded env) :
    ∀ (fuel pass : Nat) (run : List α) (c : Int) (err0 : Option GoError),
      c.toNat + run.length ≤ fuel →
      ∃ out, extractLoop env ti fuel pass run c err0 = some out := by
  intro fuel
  induction fuel with
  | zero =>
    intro pass run c err0 hfuel
    have : run = [] := List.length_eq_zero.mp (by omega)
    subst this
    exact ⟨_, extractLoop_nil env ti 0 pass c err0⟩
  | succ fuel ih =>
    intro pass run c err0 hfuel
    by_cases hne : run = []
    · subst hne
      exact ⟨_, extractLoop_nil env ti _ pass c err0⟩
    · rw [extractLoop_succ env ti fuel pass run hne]
      by_cases hstop : c ≤ 1 ∧ (passRecord env ti pass run c).failed.length = run.length
      · rw [if_pos hstop]
        exact ⟨_, rfl⟩
      · rw [if_neg hstop]
        have hlen : (passRecord env ti pass run c).failed.length ≤ run.length :=
          hb pass run ti c
        have hpos : 0 < run.length := List.length_pos.mpr hne
        have hmeasure : (nextLimit c).toNat + (passRecord env ti pass run c).failed.length
            ≤ fuel := by
          unfold nextLimit
          by_cases hc : c > 1
          · rw [if_pos hc]
            have : (c / 2).toNat < c.toNat := by omega
            omega
          · rw [if_neg hc]
            have : (passRecord env ti pass run c).failed.length ≠ run.length :=
              fun h => hstop ⟨by omega, h⟩
            omega
        obtain ⟨out', hout'⟩ := ih (pass + 1) (passRecord env ti pass run c).failed
          (nextLimit c) (passRecord env ti pass run c).err hmeasure
        rw [hout']
        exact ⟨_, rfl⟩

/-- More fuel does not change the result of a run that returns. -/
theorem extractLoop_mono {α τ : Type} (env : PipelineEnv α τ) (ti : τ) :
    ∀ (fuel pass : Nat) (run : List α) (c : Int) (err0 : Option GoError)
      (out : Option GoError × List (PassRecord α)),
      extractLoop env ti fuel pass run c err0 = some out →
      ∀ fuel', fuel ≤ fuel' → extractLoop env ti fuel' pass run c err0 = some out := by
  intro fuel
  induction fuel with
  | zero =>
    intro pass run c err0 out h fuel' _
    by_cases hne : run = []
    · subst hne
      rw [extractLoop_nil] at h ⊢
      exact h
    · rw [extractLoop_zero env ti pass run hne] at h
      cases h
  | succ fuel ih =>
    intro pass run c err0 out h fuel' hle
    by_cases hne : run = []
    · subst hne
      rw [extractLoop_nil] at h ⊢
      exact h
    · obtain ⟨n, rfl⟩ : ∃ n, fuel' = n + 1 := ⟨fuel' - 1, by omega⟩
      rw [extractLoop_succ env ti fuel pass run hne] at h
      rw [extractLoop_succ env ti n pass run hne]
      by_cases hstop : c ≤ 1 ∧ (passRecord env ti pass run c).failed.length = run.length
      · rw [if_pos hstop] at h ⊢
        exact h
      · rw [if_neg hstop] at h ⊢
        cases hrec : extractLoop env ti fuel (pass + 1) (passRecord env ti pass run c).failed
          (nextLimit c) (passRecord env ti pass run c).err with
        | none => rw [hrec] at h; cases h
        | some out' =>
          rw [hrec] at h
          rw [ih _ _ _ _ out' hrec n (by omega)]
          exact h

theorem LoopTrace_head {α τ : Type} {env : PipelineEnv α τ} {ti : τ} {pass : Nat}
    {run : List α} {c : Int} {err : Option GoError} {trace : List (PassRecord α)}
    (h : LoopTrace env ti pass run c err trace) :
    trace.head? = some (passRecord env ti pass run c) := by
  cases h <;> rfl

theorem LoopTrace_records {α τ : Type} {env : PipelineEnv α τ} {ti : τ} {pass : Nat}
    {run : List α} {c : Int} {err : Option GoError} {trace : List (PassRecord α)}
    (h : LoopTrace env ti pass run c err trace) :
    ∀ r ∈ trace, RecordOf env ti r ∧ r.files ≠ [] := by
  induction h with
  | giveUp pass run c hne hc hall =>
    intro r hr
    simp only [List.mem_singleton] at hr
    subst hr
    exact ⟨rfl, hne⟩
  | finish pass run c hne hgo hnil =>
    intro r hr
    simp only [List.mem_singleton] at hr
    subst hr
    exact ⟨rfl, hne⟩
  | retry pass run c hne hgo hsome err trace hrest ih =>
    intro r hr
    rcases List.mem_cons.mp hr with rfl | hr
    · exact ⟨rfl, hne⟩
    · exact ih r hr

/-- The error at the exit is the error of the last pass, and the last pass is one
that stops the loop. -/
theorem LoopTrace_last {α τ : Type} {env : PipelineEnv α τ} {ti : τ} {pass : Nat}
    {run : List α} {c : Int} {err : Option GoError} {trace : List (PassRecord α)}
    (h : LoopTrace env ti pass run c err trace) :
    ∃ last, trace.getLast? = some last ∧ err = last.err ∧ StopsLoop last := by
  induction h with
  | giveUp pass run c hne hc hall =>
    exact ⟨_, rfl, rfl, Or.inr ⟨hc, hall⟩⟩
  | finish pass run c hne hgo hnil =>
    exact ⟨_, rfl, rfl, Or.inl hnil⟩
  | retry pass run c hne hgo hsome err trace hrest ih =>
    obtain ⟨last, hlast, herr, hstop⟩ := ih
    refine ⟨last, ?_, herr, hstop⟩
    have hhead := LoopTrace_head hrest
    cases trace with
    | nil => simp at hhead
    | cons first rest => rw [List.getLast?_cons_cons]; exact hlast

/-- From a limit of at least 1 the limit stays at least 1. -/
theorem LoopTrace_limit {α τ : Type} {env : PipelineEnv α τ} {ti : τ} {pass : Nat}
    {run : List α} {c : Int} {err : Option GoError} {trace : List (PassRecord α)}
    (h : LoopTrace env ti pass run c err trace) :
    1 ≤ c → ∀ r ∈ trace, 1 ≤ r.downloadingConcurrency := by
  induction h with
  | giveUp pass run c hne hc hall =>
    intro h1 r hr
    simp only [List.mem_singleton] at hr
    subst hr
    exact h1
  | finish pass run c hne hgo hnil =>
    intro h1 r hr
    simp only [List.mem_singleton] at hr
    subst hr
    exact h1
  | retry pass run c hne hgo hsome err trace hrest ih =>
    intro h1 r hr
    rcases List.mem_cons.mp hr with rfl | hr
    · exact h1
    · have hnext : 1 ≤ nextLimit c := by
        unfold nextLimit
        split <;> omega
      exact ih hnext r hr

/-- Consecutive passes are related by `NextPass`, when passes do not lengthen
the list. -/
theorem LoopTrace_chain {α τ : Type} {env : PipelineEnv α τ} {ti : τ} (hb : PassBounded env)
    {pass : Nat} {run : List α} {c : Int} {err : Option GoError}
    {trace : List (PassRecord α)} (h : LoopTrace env ti pass run c err trace) :
    List.Chain' NextPass trace := by
  induction h with
  | giveUp pass run c hne hc hall => exact List.chain'_singleton _
  | finish pass run c hne hgo hnil => exact List.chain'_singleton _
  | retry pass run c hne hgo hsome err trace hrest ih =>
    rw [List.chain'_cons']
    refine ⟨?_, ih⟩
    intro q hq
    rw [LoopTrace_head hrest] at hq
    cases hq
    refine ⟨rfl, rfl, rfl, ?_⟩
    intro hc
    have hlen : (passRecord env ti pass run c).failed.length ≤ run.length := hb pass run ti c
    have hneq : (passRecord env ti pass run c).failed.length ≠ run.length :=
      fun e => hgo ⟨hc, e⟩
    show (passRecord env ti pass run c).failed.length < run.length
    omega

/-- The number of passes is at most `c.toNat + len(run)`, when passes do not
lengthen the list. -/
theorem LoopTrace_length {α τ : Type} {env : PipelineEnv α τ} {ti : τ} (hb : PassBounded env)
    {pass : Nat} {run : List α} {c : Int} {err : Option GoError}
    {trace : List (PassRecord α)} (h : LoopTrace env ti pass run c err trace) :
    trace.length ≤ c.toNat + run.length := by
  induction h with
  | giveUp pass run c hne hc hall =>
    have : 0 < run.length := List.length_pos.mpr hne
    simp only [List.length_singleton]
    omega
  | finish pass run c hne hgo hnil =>
    have : 0 < run.length := List.length_pos.mpr hne
    simp only [List.length_singleton]
    omega
  | retry pass run c hne hgo hsome err trace hrest ih =>
    have hlen : (passRecord env ti pass run c).failed.length ≤ run.length := hb pass run ti c
    simp only [List.length_cons]
    unfold nextLimit at ih
    by_cases hc : c > 1
    · rw [if_pos hc] at ih
      have : (c / 2).toNat < c.toNat := by omega
      omega
    · rw [if_neg hc] at ih
      have : (passRecord env ti pass run c).failed.length ≠ run.length :=
        fun e => hgo ⟨by omega, e⟩
      omega

theorem examplePipeline_bounded : PassBounded examplePipeline := by
  intro pass files ti c
  exact List.length_filter_le _ _

theorem ExtractAll_nonempty {α τ : Type} (env : PipelineEnv α τ) (fuel : Nat) (ti : τ)
    (files : List α) (hne : files ≠ []) :
    ExtractAll env fuel ti files
      = extractLoop env ti fuel 0 files
          (env.getMaxDownloadConcurrency (min (files.length : Int) 10)) none := by
  have hpos : 0 < files.length := List.length_pos.mpr hne
  have : ¬ files.length < 1 := by omega
  simp [ExtractAll, this]

/-- C9, the failing run: `ExtractAll` drops a failure silently. Members 1 and 2
both fail in pass 0 (their decompress goroutines return an error). Run in
turn, the two goroutines leave `failed = [1, 2]`. Under the schedule in which
both read `failed` before either stores `append(failed, f)`, the store of
member 1 is overwritten and the pass returns `failed = [2]`. The loop of
`ExtractAll` then retries member 2 alone, which succeeds, and `ExtractAll`
returns `nil`: member 1 failed, was never retried, and no error is reported. -/
theorem extract_all_drops_racing_failure :
    (raceOutcome 0 1 .decompress).isSome = true ∧
    (raceOutcome 0 2 .decompress).isSome = true ∧
    tryExtractFiles (raceOutcome 0) [1, 2] 2 orderlySchedule
      = some ([1, 2], some (.wrapped (.plain "connection reset")
          "DecryptAndDecompressTar: failed to create new reader")) ∧
    tryExtractFiles (raceOutcome 0) [1, 2] 2 (raceSchedule 0)
      = some ([2], some (.wrapped (.plain "connection reset")
          "DecryptAndDecompressTar: failed to create new reader")) ∧
    tryExtractFiles (raceOutcome 1) [2] 1 (raceSchedule 1) = some ([], none) ∧
    ExtractAll racePipeline 3 () [1, 2]
      = some (none,
          [⟨0, [1, 2], 2, [2], some (.wrapped (.plain "connection reset")
              "DecryptAndDecompressTar: failed to create new reader")⟩,
           ⟨1, [2], 1, [], none⟩]) := by
  refine ⟨by decide, by decide, by decide, by decide, by decide, by decide⟩

/-- C10: the retry loop of `ExtractAll` terminates. For every non-empty member
list and every initial limit `c ≥ 1`, provided each pass returns a failed
list no longer than the list it was run on, `ExtractAll` returns after at
most `c + len(files)` passes. The first pass runs on the input with limit
`c`; every limit is at least 1; from one pass to the next the limit is
halved while it is above 1 and kept otherwise, the next pass runs on exactly
the failed members of the pass before, and after a pass with limit 1 the
next pass runs on a strictly shorter list; the last pass either had no
failed member or failed on its whole run with limit 1. -/
theorem extract_all_terminates {α τ : Type} (env : PipelineEnv α τ) (ti : τ)
    (files : List α) (c : Int)
    (hc : env.getMaxDownloadConcurrency (min (files.length : Int) 10) = c)
    (hne : files ≠ []) (h1 : 1 ≤ c) (hb : PassBounded env) :
    ∃ (fuel : Nat) (out : Option GoError × List (PassRecord α)),
      (∀ fuel', fuel ≤ fuel' → ExtractAll env fuel' ti files = some out) ∧
      out.2.length ≤ c.toNat + files.length ∧
      out.2.head? = some (passRecord env ti 0 files c) ∧
      (∀ r ∈ out.2, RecordOf env ti r ∧ 1 ≤ r.downloadingConcurrency) ∧
      List.Chain' NextPass out.2 ∧
      (∃ last, out.2.getLast? = some last ∧ StopsLoop last) := by
  obtain ⟨out, hout⟩ := extractLoop_returns env ti hb (c.toNat + files.length) 0 files c none
    (Nat.le_refl _)
  have htrace := extractLoop_trace env ti _ _ _ _ _ out hne hout
  obtain ⟨last, hlast, _, hstop⟩ := LoopTrace_last htrace
  refine ⟨c.toNat + files.length, out, ?_, LoopTrace_length hb htrace, LoopTrace_head htrace,
    fun r hr => ⟨(LoopTrace_records htrace r hr).1, LoopTrace_limit htrace h1 r hr⟩,
    LoopTrace_chain hb htrace, ⟨last, hlast, hstop⟩⟩
  intro fuel' hle
  rw [ExtractAll_nonempty env fuel' ti files hne, hc]
  exact extractLoop_mono env ti _ _ _ _ _ out hout fuel' hle

/-- C10, on an example: four members and the initial limit 4; the limits of the
three passes are 4, 2, 1. -/
theorem extract_all_terminates_witness :
    PassBounded examplePipeline ∧
    (ExtractAll examplePipeline 5 () [1, 15, 25, 3]).map
        (fun out => out.2.map fun r => (r.downloadingConcurrency, r.files.length))
      = some [(4, 4), (2, 2), (1, 1)] ∧
    ∃ (fuel : Nat) (out : Option GoError × List (PassRecord Nat)),
      ExtractAll examplePipeline fuel () [1, 15, 25, 3] = some out ∧
      out.2.length ≤ 8 ∧ List.Chain' NextPass out.2 := by
  refine ⟨examplePipeline_bounded, by decide, ?_⟩
  obtain ⟨fuel, out, h⟩ :=
    extract_all_terminates examplePipeline () [1, 15, 25, 3] 4 (by decide) (by decide)
      (by decide) examplePipeline_bounded
  exact ⟨fuel, out, h.1 fuel (Nat.le_refl _), h.2.1, h.2.2.2.2.1⟩

end Walg
